import Mathlib

/-!
Verification of the post-processing core of the ultralytics yolo-flutter-app
plugin, shallowly embedded from the C++ sources under android/src/main/cpp
(tflite_detect.cpp, native-lib.cpp, tflite_segment.cpp, types.hpp).

Conventions of the embedding:
* float values are modeled as exact rationals (ℚ); the arithmetic the code
  performs (additions, multiplications, divisions, comparisons) is embedded
  as exact rational arithmetic on the given inputs;
* a tensor read the source leaves undefined (out-of-range std::vector access)
  surfaces as `none`: fallible stages return `Option`;
* the IEEE behavior of the one unguarded float division (IoU with a zero
  denominator) is modeled explicitly in `iouCheckCv`.
-/

namespace Yolo

/-- cv::Rect_<float> (types.hpp): top-left corner plus size. -/
structure RectQ where
  x : ℚ
  y : ℚ
  width : ℚ
  height : ℚ
deriving DecidableEq, Repr

/-- Rect_::area() (types.hpp line 298): width * height. -/
def RectQ.area (r : RectQ) : ℚ := r.width * r.height

/-- Rect_::empty() (types.hpp line 307): width ≤ 0 or height ≤ 0. -/
def RectQ.isEmpty (r : RectQ) : Prop := r.width ≤ 0 ∨ r.height ≤ 0

instance (r : RectQ) : Decidable r.isEmpty := by unfold RectQ.isEmpty; infer_instance

/-- cv::Rect_ operator& (types.hpp operator&=, lines 360-392): rectangle
    intersection. An empty operand, the overflow early-return, or an empty
    result all collapse to the zero rectangle; for rationals the overflow
    branch (types.hpp line 376) only fires when the computed width or height
    would be negative, so it is subsumed by the emptiness test below. -/
def rectInter (a b : RectQ) : RectQ :=
  if a.isEmpty ∨ b.isEmpty then ⟨0, 0, 0, 0⟩
  else
    let x := max a.x b.x
    let y := max a.y b.y
    let w := min (a.x + a.width) (b.x + b.width) - x
    let h := min (a.y + a.height) (b.y + b.height) - y
    if w ≤ 0 ∨ h ≤ 0 then ⟨0, 0, 0, 0⟩ else ⟨x, y, w, h⟩

/-- intersection_area (tflite_detect.cpp lines 45-48, tflite_segment.cpp
    lines 71-74): (a.rect & b.rect).area(). -/
def intersection_area (ra rb : RectQ) : ℚ := (rectInter ra rb).area

/-- intersection_area (native-lib.cpp lines 50-69): clamped overlap extents
    multiplied, with no emptiness pre-test. -/
def intersection_area_native (ra rb : RectQ) : ℚ :=
  max 0 (min (ra.x + ra.width) (rb.x + rb.width) - max ra.x rb.x) *
  max 0 (min (ra.y + ra.height) (rb.y + rb.height) - max ra.y rb.y)

/-- The per-pair IoU test of nms_sorted_bboxes in tflite_detect.cpp (lines
    69-73) and tflite_segment.cpp (lines 186-190):
    `inter_area / union_area > nms_threshold`, with no guard on the
    denominator. IEEE float semantics at a zero denominator are modeled
    exactly: 0/0 is NaN and the comparison is false; a positive numerator
    over zero is +inf and the comparison is true. A nonzero denominator is
    exact division. -/
def iouCheckCv (τ : ℚ) (ra rb : RectQ) : Bool :=
  let inter := intersection_area ra rb
  let union := ra.area + rb.area - inter
  if union = 0 then decide (0 < inter) else decide (τ < inter / union)

/-- The per-pair IoU test of nms_sorted_bboxes in native-lib.cpp (line 86):
    `union_area > 0 && (inter_area / union_area > nms_threshold)`. -/
def iouCheckNative (τ : ℚ) (ra rb : RectQ) : Bool :=
  decide (0 < ra.area + rb.area - intersection_area_native ra rb) &&
  decide (τ < intersection_area_native ra rb /
    (ra.area + rb.area - intersection_area_native ra rb))

/-- The comparison `inter_area / union_area > nms_threshold` of
    tflite_detect.cpp line 72 and tflite_segment.cpp line 189, as a function
    of numerator and denominator, under IEEE float semantics: the division
    is evaluated unconditionally; at a zero denominator it yields NaN for a
    zero numerator (the comparison is false) and +inf for a positive one
    (the comparison is true); a nonzero denominator is exact division.
    `iouCheckCv` is exactly this function applied to a pair's intersection
    and union (`iouCheckCv_eq_ieeeDivGT`). -/
def ieeeDivGT (τ inter union : ℚ) : Bool :=
  if union = 0 then decide (0 < inter) else decide (τ < inter / union)

/-- Modelled from the spec's words (§4.3, "Guard against zero union: if
    union ≤ 0, treat IoU as 0"), for comparison with `ieeeDivGT`: the
    comparison with the division guarded, the IoU taken to be 0 whenever
    union ≤ 0 so that the division is never evaluated there. -/
def guardedDivGTSpec (τ inter union : ℚ) : Bool :=
  if union ≤ 0 then decide (τ < 0) else decide (τ < inter / union)

/-- DetectedObject (ultralytics.h, native-lib.cpp lines 21-25). -/
structure DetectedObject where
  rect : RectQ
  index : ℕ
  confidence : ℚ
deriving DecidableEq, Repr

def defaultDet : DetectedObject := ⟨⟨0, 0, 0, 0⟩, 0, 0⟩

/-- DetectedSegmentObject (tflite_segment.cpp lines 26-31). -/
structure DetectedSegmentObject where
  rect : RectQ
  index : ℕ
  confidence : ℚ
  mask_coeff : List ℚ
deriving DecidableEq, Repr

def defaultSeg : DetectedSegmentObject := ⟨⟨0, 0, 0, 0⟩, 0, 0, []⟩

/-- The candidate loop of nms_sorted_bboxes, generic in the object type and
    the per-pair suppression test `sup`: `picked` accumulates kept indices,
    `i` is the position of the head of `pending` inside `objs`. The areas
    cache of the source (`areas[i] = width * height`) is inlined into `sup`.
    tflite_detect.cpp scans the whole kept list and native-lib.cpp breaks at
    the first suppressor; both compute the same `keep` Boolean, embedded as
    `List.all`. -/
def nmsGo {α : Type} (sup : α → α → Bool) (d : α) (objs : List α) :
    List α → ℕ → List ℕ → List ℕ
  | [], _, picked => picked
  | a :: rest, i, picked =>
    if picked.all fun j => ! sup a (objs.getD j d) then
      nmsGo sup d objs rest (i + 1) (picked ++ [i])
    else
      nmsGo sup d objs rest (i + 1) picked

/-- nms_sorted_bboxes (tflite_detect.cpp lines 50-79). -/
def nms_sorted_bboxes (objs : List DetectedObject) (τ : ℚ) : List ℕ :=
  nmsGo (fun a b => iouCheckCv τ a.rect b.rect) defaultDet objs objs 0 []

/-- nms_sorted_bboxes (native-lib.cpp lines 72-94). -/
def nms_sorted_bboxes_native (objs : List DetectedObject) (τ : ℚ) : List ℕ :=
  nmsGo (fun a b => iouCheckNative τ a.rect b.rect) defaultDet objs objs 0 []

/-- nms_sorted_bboxes (tflite_segment.cpp lines 167-196): the tflite_detect
    copy on DetectedSegmentObject. -/
def nms_sorted_bboxes_seg (objs : List DetectedSegmentObject) (τ : ℚ) : List ℕ :=
  nmsGo (fun a b => iouCheckCv τ a.rect b.rect) defaultSeg objs objs 0 []

/-- Object-level reformulation of the nms loop: `kept` is the list of already
    kept objects, and the result is the list of objects kept from `pending`,
    in scan order. Related to `nmsGo` by `nmsGo_map_getD` below. -/
def nmsKeepGo {α : Type} (sup : α → α → Bool) : List α → List α → List α
  | _, [] => []
  | kept, a :: rest =>
    if kept.all fun b => ! sup a b then a :: nmsKeepGo sup (kept ++ [a]) rest
    else nmsKeepGo sup kept rest

/-- qsort_descent_inplace (tflite_detect.cpp lines 4-43, native-lib.cpp lines
    28-47): in-place quicksort by descending confidence. Only the descending
    order is observable (spec §4.2 leaves the order of equal confidences
    free); embedded as a sort by the same comparison on confidences. -/
def qsort_descent (l : List DetectedObject) : List DetectedObject :=
  List.insertionSort (fun a b => b.confidence ≤ a.confidence) l

/-- qsort_descent_inplace (tflite_segment.cpp lines 33-65). -/
def qsort_descent_seg (l : List DetectedSegmentObject) : List DetectedSegmentObject :=
  List.insertionSort (fun a b => b.confidence ≤ a.confidence) l

instance : IsTotal DetectedObject (fun a b => b.confidence ≤ a.confidence) :=
  ⟨fun a b => le_total b.confidence a.confidence⟩

instance : IsTrans DetectedObject (fun a b => b.confidence ≤ a.confidence) :=
  ⟨fun _ _ _ h1 h2 => le_trans h2 h1⟩

instance : IsTotal DetectedSegmentObject (fun a b => b.confidence ≤ a.confidence) :=
  ⟨fun a b => le_total b.confidence a.confidence⟩

instance : IsTrans DetectedSegmentObject (fun a b => b.confidence ≤ a.confidence) :=
  ⟨fun _ _ _ h1 h2 => le_trans h2 h1⟩

/-- One tensor read vec[row][i]. The source performs an unchecked
    std::vector access; an out-of-range index has no defined value and is
    modeled as `none`. -/
def readCol (vec : List (List ℚ)) (row i : ℕ) : Option ℚ :=
  (vec[row]?).bind fun r => r[i]?

/-- Reads vec[c + off][i] for each listed c. With off = 4 these are the class
    score reads (tflite_detect.cpp line 118); with off = 4 + num_classes the
    mask-coefficient reads (tflite_segment.cpp line 293). -/
def readRows (vec : List (List ℚ)) (off i : ℕ) : List ℕ → Option (List ℚ)
  | [] => some []
  | c :: cs => do
    let s ← readCol vec (c + off) i
    let ss ← readRows vec off i cs
    pure (s :: ss)

/-- Exact value of FLT_MAX, negated: the initial class_score
    (`float class_score = -FLT_MAX`, tflite_detect.cpp line 113). -/
def negFLTMAX : ℚ := -(2 ^ 128 - 2 ^ 104)

/-- The argmax scan (tflite_detect.cpp lines 122-127): `c` is the index of
    the head of the remaining score list, (bi, bs) the current best index and
    score; the update fires only on a strict increase. -/
def bestClassGo : List ℚ → ℕ → ℕ → ℚ → ℕ × ℚ
  | [], _, bi, bs => (bi, bs)
  | s :: rest, c, bi, bs =>
    if bs < s then bestClassGo rest (c + 1) c s else bestClassGo rest (c + 1) bi bs

def bestClass (scores : List ℚ) : ℕ × ℚ := bestClassGo scores 0 0 negFLTMAX

/-- Per-column proposal extraction of TfliteDetector_postprocess
    (tflite_detect.cpp lines 110-146): scores come from rows 4..4+nc-1; the
    box is read from rows 0..3 only when the winning score beats the
    threshold strictly; the rect stores the raw (cx, cy, w, h). Emits [] for
    a skipped column or a single proposal. -/
def buildColumnTflite (vec : List (List ℚ)) (nc : ℕ) (τc : ℚ) (i : ℕ) :
    Option (List DetectedObject) := do
  let scores ← readRows vec 4 i (List.range nc)
  if τc < (bestClass scores).2 then do
    let dx ← readCol vec 0 i
    let dy ← readCol vec 1 i
    let dw ← readCol vec 2 i
    let dh ← readCol vec 3 i
    pure [⟨⟨dx, dy, dw, dh⟩, (bestClass scores).1, (bestClass scores).2⟩]
  else
    pure []

/-- Per-column proposal extraction of ObjectDetector_postprocess
    (native-lib.cpp lines 123-152): identical scan, but the stored rect is
    already converted to the top-left form (cx - w/2, cy - h/2, w, h). -/
def buildColumnNative (vec : List (List ℚ)) (nc : ℕ) (τc : ℚ) (i : ℕ) :
    Option (List DetectedObject) := do
  let scores ← readRows vec 4 i (List.range nc)
  if τc < (bestClass scores).2 then do
    let cx ← readCol vec 0 i
    let cy ← readCol vec 1 i
    let wb ← readCol vec 2 i
    let hb ← readCol vec 3 i
    pure [⟨⟨cx - wb / 2, cy - hb / 2, wb, hb⟩,
      (bestClass scores).1, (bestClass scores).2⟩]
  else
    pure []

/-- Per-column proposal extraction of TfliteSegmenter_postprocess
    (tflite_segment.cpp lines 262-304): as in tflite_detect plus the
    mask-coefficient vector copied from rows 4+nc..4+nc+mc-1. -/
def buildColumnSeg (vec : List (List ℚ)) (nc mc : ℕ) (τc : ℚ) (i : ℕ) :
    Option (List DetectedSegmentObject) := do
  let scores ← readRows vec 4 i (List.range nc)
  if τc < (bestClass scores).2 then do
    let dx ← readCol vec 0 i
    let dy ← readCol vec 1 i
    let dw ← readCol vec 2 i
    let dh ← readCol vec 3 i
    let coeffs ← readRows vec (4 + nc) i (List.range mc)
    pure [⟨⟨dx, dy, dw, dh⟩, (bestClass scores).1, (bestClass scores).2, coeffs⟩]
  else
    pure []

/-- The column loop `for (int i = 0; i < w; ++i)` accumulating proposals. -/
def buildLoop {α : Type} (f : ℕ → Option (List α)) : List ℕ → Option (List α)
  | [] => some []
  | i :: is => do
    let x ← f i
    let xs ← buildLoop f is
    pure (x ++ xs)

def proposalsTflite (vec : List (List ℚ)) (w nc : ℕ) (τc : ℚ) :
    Option (List DetectedObject) :=
  buildLoop (buildColumnTflite vec nc τc) (List.range w)

def proposalsNative (vec : List (List ℚ)) (w nc : ℕ) (τc : ℚ) :
    Option (List DetectedObject) :=
  buildLoop (buildColumnNative vec nc τc) (List.range w)

def proposalsSeg (vec : List (List ℚ)) (w nc mc : ℕ) (τc : ℚ) :
    Option (List DetectedSegmentObject) :=
  buildLoop (buildColumnSeg vec nc mc τc) (List.range w)

/-- The output normalization of tflite_detect.cpp (lines 161-169) and
    tflite_segment.cpp (lines 367-375): the stored rect is treated as
    (cx, cy, w, h), converted to corners and clamped to the unit square;
    x0 = max(0, cx - w/2), y0 = max(0, cy - h/2), x1 = min(1, cx + w/2),
    y1 = min(1, cy + h/2), result (x0, y0, x1 - x0, y1 - y0). -/
def clampRect (r : RectQ) : RectQ :=
  ⟨max 0 (r.x - r.width / 2), max 0 (r.y - r.height / 2),
   min 1 (r.x + r.width / 2) - max 0 (r.x - r.width / 2),
   min 1 (r.y + r.height / 2) - max 0 (r.y - r.height / 2)⟩

def clampDet (o : DetectedObject) : DetectedObject :=
  ⟨clampRect o.rect, o.index, o.confidence⟩

def clampSeg (o : DetectedSegmentObject) : DetectedSegmentObject :=
  ⟨clampRect o.rect, o.index, o.confidence, o.mask_coeff⟩

/-- Java_com_ultralytics_ultralytics_1yolo_predict_detect_TfliteDetector_postprocess
    (tflite_detect.cpp lines 83-198), JNI marshalling aside: build raw-rect
    proposals, sort by descending confidence, greedy NMS, truncate to
    `min(picked.size(), num_items_threshold)`, clamp-normalize each kept
    proposal. The returned [x, y, w, h, conf, class] rows are a
    field-for-field copy of the kept objects. -/
def tfliteDetectorPostprocess (vec : List (List ℚ)) (w nc : ℕ) (τc τi : ℚ)
    (N : ℕ) : Option (List DetectedObject) :=
  (proposalsTflite vec w nc τc).map fun proposals =>
    let sorted := qsort_descent proposals
    let picked := nms_sorted_bboxes sorted τi
    (picked.take (min picked.length N)).map fun k =>
      clampDet (sorted.getD k defaultDet)

/-- Java_com_ultralytics_yolo_ObjectDetector_postprocess (native-lib.cpp
    lines 96-189): proposals are stored top-left converted and the output is
    emitted without any further conversion or clamping
    ("No additional conversion needed here", native-lib.cpp line 165). -/
def objectDetectorPostprocess (vec : List (List ℚ)) (w nc : ℕ) (τc τi : ℚ)
    (N : ℕ) : Option (List DetectedObject) :=
  (proposalsNative vec w nc τc).map fun proposals =>
    let sorted := qsort_descent proposals
    let picked := nms_sorted_bboxes_native sorted τi
    (picked.take (min picked.length N)).map fun k => sorted.getD k defaultDet

/-- Rect/confidence/class part of
    Java_com_ultralytics_ultralytics_1yolo_predict_segment_TfliteSegmenter_postprocess
    (tflite_segment.cpp lines 198-458). The mask and polygon stages
    (prototype multiplication, OpenCV findContours / drawContours, external
    library code) feed only the polygon output and never the rect, confidence
    or class fields modeled here; they are omitted from the embedding. -/
def tfliteSegmenterPostprocess (vec : List (List ℚ)) (w nc mc : ℕ)
    (τc τi : ℚ) (N : ℕ) : Option (List DetectedSegmentObject) :=
  (proposalsSeg vec w nc mc τc).map fun proposals =>
    let sorted := qsort_descent_seg proposals
    let picked := nms_sorted_bboxes_seg sorted τi
    (picked.take (min picked.length N)).map fun k =>
      clampSeg (sorted.getD k defaultSeg)

/-- cv::Rect (Rect_<int>, types.hpp). -/
structure RectZ where
  x : ℤ
  y : ℤ
  width : ℤ
  height : ℤ
deriving DecidableEq, Repr

/-- C++ float-to-int conversion: truncation toward zero. -/
def truncQ (q : ℚ) : ℤ := if 0 ≤ q then ⌊q⌋ else ⌈q⌉

/-- Rounding to the nearest integer, used only by `pixelRectSpec`. -/
def roundQ (q : ℚ) : ℤ := round q

/-- cv::Rect pixel_rect(...) (tflite_segment.cpp lines 377-382): the four
    float products are converted to int by C++ truncation toward zero; x and
    width are scaled by mask_shape1 (the prototype grid height H_m), y and
    height by mask_shape2 (the grid width W_m). -/
def pixelRect (r : RectQ) (mask_shape1 mask_shape2 : ℕ) : RectZ :=
  ⟨truncQ (r.x * mask_shape1), truncQ (r.y * mask_shape2),
   truncQ (r.width * mask_shape1), truncQ (r.height * mask_shape2)⟩

/-- Rect_<int>::contains (types.hpp lines 318-322): half-open on both axes,
    x ≤ px < x + width and y ≤ py < y + height. -/
def RectZ.containsPt (r : RectZ) (px py : ℤ) : Bool :=
  decide (r.x ≤ px) && decide (px < r.x + r.width) &&
  decide (r.y ≤ py) && decide (py < r.y + r.height)

/-- The contour-point filter (tflite_segment.cpp lines 387-392): keep the
    points of a polygon that pixel_rect contains. -/
def filterPoints (r : RectZ) (pts : List (ℤ × ℤ)) : List (ℤ × ℤ) :=
  pts.filter fun p => r.containsPt p.1 p.2

/-- Modelled from the spec (§4.5 step 4), for comparison with `pixelRect`:
    "rect_px = (round(x · W_m), round(y · H_m), round(w · W_m),
    round(h · H_m))", with H_m = mask_shape1 and W_m = mask_shape2. -/
def pixelRectSpec (r : RectQ) (mask_shape1 mask_shape2 : ℕ) : RectZ :=
  ⟨roundQ (r.x * mask_shape2), roundQ (r.y * mask_shape1),
   roundQ (r.width * mask_shape2), roundQ (r.height * mask_shape1)⟩

/-! ### Generic lemmas about the NMS loop -/

/-- Whatever the suppression test, the kept objects form a sublist of the
    scanned objects (kept in scan order, some dropped). -/
theorem nmsKeepGo_sublist {α : Type} (sup : α → α → Bool) :
    ∀ (pending kept : List α), (nmsKeepGo sup kept pending).Sublist pending := by
  intro pending
  induction pending with
  | nil => intro kept; simp [nmsKeepGo]
  | cons a rest ih =>
    intro kept
    rw [nmsKeepGo]
    split
    · exact (ih (kept ++ [a])).cons₂ a
    · exact (ih kept).cons a

/-- Re-running the keep loop on its own output (with the same already-kept
    prefix) changes nothing: each survivor is re-checked against exactly the
    objects it was checked against the first time. -/
theorem nmsKeepGo_idem {α : Type} (sup : α → α → Bool) :
    ∀ (pending kept : List α),
      nmsKeepGo sup kept (nmsKeepGo sup kept pending) = nmsKeepGo sup kept pending := by
  intro pending
  induction pending with
  | nil => intro kept; simp [nmsKeepGo]
  | cons a rest ih =>
    intro kept
    rw [nmsKeepGo]
    split
    · rename_i hc
      conv_lhs => rw [nmsKeepGo]
      rw [if_pos hc, ih (kept ++ [a])]
    · rename_i hc
      exact ih kept

/-- Bool `all` commutes with `map` (general version). -/
theorem all_map_comp {α β : Type} (f : α → β) (p : β → Bool) :
    ∀ l : List α, (l.map f).all p = l.all fun x => p (f x) := by
  intro l; induction l with
  | nil => rfl
  | cons a l ih => simp [ih]

/-- The index-level nms loop and the object-level one agree: mapping the
    picked indices through the object list gives the kept objects. -/
theorem nmsGo_map_getD {α : Type} (sup : α → α → Bool) (d : α) (objs : List α) :
    ∀ (pending : List α) (i : ℕ) (picked : List ℕ), pending = objs.drop i →
      (nmsGo sup d objs pending i picked).map (fun j => objs.getD j d)
        = picked.map (fun j => objs.getD j d)
          ++ nmsKeepGo sup (picked.map fun j => objs.getD j d) pending := by
  intro pending
  induction pending with
  | nil => intro i picked _; simp [nmsGo, nmsKeepGo]
  | cons a rest ih =>
    intro i picked hdrop
    have hlt : i < objs.length := by
      by_contra hge
      rw [List.drop_eq_nil_iff.mpr (le_of_not_lt hge)] at hdrop
      exact List.cons_ne_nil a rest hdrop
    have hcons : objs.drop i = objs[i] :: objs.drop (i + 1) :=
      List.drop_eq_getElem_cons hlt
    rw [← hdrop] at hcons
    have ha : a = objs.getD i d := by
      rw [List.getD_eq_getElem objs d hlt]
      exact (List.cons.injEq _ _ _ _ ▸ hcons).1
    have hrest : rest = objs.drop (i + 1) :=
      (List.cons.injEq _ _ _ _ ▸ hcons).2
    rw [nmsGo]
    split
    · rename_i hcond
      rw [ih (i + 1) (picked ++ [i]) hrest]
      rw [nmsKeepGo]
      rw [if_pos (by rw [all_map_comp]; exact hcond)]
      simp [ha]
    · rename_i hcond
      rw [ih (i + 1) picked hrest]
      rw [nmsKeepGo]
      rw [if_neg (by rw [all_map_comp]; exact hcond)]

/-- Specialization: the top-level picked indices mapped through the object
    list are exactly the object-level kept list. -/
theorem nms_sorted_bboxes_map_getD (objs : List DetectedObject) (τ : ℚ) :
    (nms_sorted_bboxes objs τ).map (fun j => objs.getD j defaultDet)
      = nmsKeepGo (fun a b => iouCheckCv τ a.rect b.rect) [] objs := by
  have h := nmsGo_map_getD (fun a b => iouCheckCv τ a.rect b.rect) defaultDet objs
    objs 0 [] (List.drop_zero objs).symm
  simpa [nms_sorted_bboxes] using h

theorem nms_sorted_bboxes_native_map_getD (objs : List DetectedObject) (τ : ℚ) :
    (nms_sorted_bboxes_native objs τ).map (fun j => objs.getD j defaultDet)
      = nmsKeepGo (fun a b => iouCheckNative τ a.rect b.rect) [] objs := by
  have h := nmsGo_map_getD (fun a b => iouCheckNative τ a.rect b.rect) defaultDet objs
    objs 0 [] (List.drop_zero objs).symm
  simpa [nms_sorted_bboxes_native] using h

theorem nms_sorted_bboxes_seg_map_getD (objs : List DetectedSegmentObject) (τ : ℚ) :
    (nms_sorted_bboxes_seg objs τ).map (fun j => objs.getD j defaultSeg)
      = nmsKeepGo (fun a b => iouCheckCv τ a.rect b.rect) [] objs := by
  have h := nmsGo_map_getD (fun a b => iouCheckCv τ a.rect b.rect) defaultSeg objs
    objs 0 [] (List.drop_zero objs).symm
  simpa [nms_sorted_bboxes_seg] using h

/-! ### Geometry of the IoU tests -/

theorem intersection_area_nonneg (ra rb : RectQ) : 0 ≤ intersection_area ra rb := by
  simp only [intersection_area, rectInter, RectQ.area]
  split_ifs with h1 h2
  · norm_num
  · norm_num
  · push_neg at h2
    exact le_of_lt (mul_pos h2.1 h2.2)

theorem intersection_area_native_nonneg (ra rb : RectQ) :
    0 ≤ intersection_area_native ra rb :=
  mul_nonneg (le_max_left 0 _) (le_max_left 0 _)

/-- The cv-style intersection is either 0, or bounded by the second area
    with both areas positive. -/
theorem intersection_area_cases (ra rb : RectQ) :
    intersection_area ra rb = 0 ∨
      (intersection_area ra rb ≤ rb.area ∧ 0 < ra.area) := by
  simp only [intersection_area, rectInter]
  split_ifs with h1 h2
  · left; simp [RectQ.area]
  · left; simp [RectQ.area]
  · right
    push_neg at h2
    simp only [RectQ.isEmpty, not_or, not_le] at h1
    obtain ⟨⟨haw, hah⟩, hbw, hbh⟩ := h1
    simp only [RectQ.area]
    constructor
    · have hw2 : min (ra.x + ra.width) (rb.x + rb.width) - max ra.x rb.x ≤ rb.width := by
        have h3 := min_le_right (ra.x + ra.width) (rb.x + rb.width)
        have h4 := le_max_right ra.x rb.x
        linarith
      have hh2 : min (ra.y + ra.height) (rb.y + rb.height) - max ra.y rb.y ≤ rb.height := by
        have h3 := min_le_right (ra.y + ra.height) (rb.y + rb.height)
        have h4 := le_max_right ra.y rb.y
        linarith
      exact mul_le_mul hw2 hh2 (le_of_lt h2.2) (le_of_lt hbw)
    · exact mul_pos haw hah

/-- A positive cv-style intersection forces a positive union. -/
theorem union_pos_of_inter_pos (ra rb : RectQ) (h : 0 < intersection_area ra rb) :
    0 < ra.area + rb.area - intersection_area ra rb := by
  rcases intersection_area_cases ra rb with h0 | ⟨hle, hpa⟩
  · rw [h0] at h; exact absurd h (lt_irrefl 0)
  · linarith

/-- Same for the native-lib intersection. -/
theorem union_native_pos_of_inter_pos (ra rb : RectQ)
    (h : 0 < intersection_area_native ra rb) :
    0 < ra.area + rb.area - intersection_area_native ra rb := by
  simp only [intersection_area_native, RectQ.area] at h ⊢
  have hx0 : (0:ℚ) ≤ max 0 (min (ra.x + ra.width) (rb.x + rb.width) - max ra.x rb.x) :=
    le_max_left 0 _
  have hy0 : (0:ℚ) ≤ max 0 (min (ra.y + ra.height) (rb.y + rb.height) - max ra.y rb.y) :=
    le_max_left 0 _
  rcases mul_pos_iff.mp h with ⟨hx, hy⟩ | ⟨hx, _⟩
  · have hdx : 0 < min (ra.x + ra.width) (rb.x + rb.width) - max ra.x rb.x := by
      rcases lt_max_iff.mp hx with h' | h'
      · exact absurd h' (lt_irrefl 0)
      · exact h'
    have hdy : 0 < min (ra.y + ra.height) (rb.y + rb.height) - max ra.y rb.y := by
      rcases lt_max_iff.mp hy with h' | h'
      · exact absurd h' (lt_irrefl 0)
      · exact h'
    rw [max_eq_right (le_of_lt hdx), max_eq_right (le_of_lt hdy)] at h ⊢
    have hwa : 0 < ra.width := by
      have h3 := min_le_left (ra.x + ra.width) (rb.x + rb.width)
      have h4 := le_max_left ra.x rb.x
      linarith
    have hha : 0 < ra.height := by
      have h3 := min_le_left (ra.y + ra.height) (rb.y + rb.height)
      have h4 := le_max_left ra.y rb.y
      linarith
    have hw2 : min (ra.x + ra.width) (rb.x + rb.width) - max ra.x rb.x ≤ rb.width := by
      have h3 := min_le_right (ra.x + ra.width) (rb.x + rb.width)
      have h4 := le_max_right ra.x rb.x
      linarith
    have hh2 : min (ra.y + ra.height) (rb.y + rb.height) - max ra.y rb.y ≤ rb.height := by
      have h3 := min_le_right (ra.y + ra.height) (rb.y + rb.height)
      have h4 := le_max_right ra.y rb.y
      linarith
    have hble : (min (ra.x + ra.width) (rb.x + rb.width) - max ra.x rb.x) *
        (min (ra.y + ra.height) (rb.y + rb.height) - max ra.y rb.y)
          ≤ rb.width * rb.height :=
      mul_le_mul hw2 hh2 (le_of_lt hdy) (by linarith)
    have hpa : 0 < ra.width * ra.height := mul_pos hwa hha
    linarith
  · exact absurd hx (not_lt.mpr hx0)

/-- C3 (amended). In every nms_sorted_bboxes variant, a candidate/kept pair
    whose union area is ≤ 0 has zero intersection and never suppresses the
    candidate — the comparison decides exactly as if the IoU were 0: in
    tflite_detect.cpp and tflite_segment.cpp because the unguarded IEEE
    division then evaluates 0/0 (NaN, comparison false) or 0/negative
    (≤ 0 < τ), and in native-lib.cpp because the explicit `union_area > 0`
    guard fails. The division itself is guarded only in native-lib.cpp; the
    other two copies evaluate it even at a zero denominator — see
    `claim_C3_counterexample`. -/
theorem claim_C3_zero_union_never_suppresses (τ : ℚ) (ra rb : RectQ) (hτ : 0 < τ) :
    (ra.area + rb.area - intersection_area ra rb ≤ 0 →
      intersection_area ra rb = 0 ∧ iouCheckCv τ ra rb = false) ∧
    (ra.area + rb.area - intersection_area_native ra rb ≤ 0 →
      intersection_area_native ra rb = 0 ∧ iouCheckNative τ ra rb = false) := by
  constructor
  · intro hu
    have hi0 : intersection_area ra rb = 0 := by
      rcases eq_or_lt_of_le (intersection_area_nonneg ra rb) with h | h
      · exact h.symm
      · have := union_pos_of_inter_pos ra rb h
        linarith
    refine ⟨hi0, ?_⟩
    simp only [iouCheckCv]
    split_ifs with h0
    · simp [hi0]
    · rw [hi0, zero_div]
      simp only [decide_eq_false_iff_not, not_lt]
      linarith
  · intro hu
    have hi0 : intersection_area_native ra rb = 0 := by
      rcases eq_or_lt_of_le (intersection_area_native_nonneg ra rb) with h | h
      · exact h.symm
      · have := union_native_pos_of_inter_pos ra rb h
        linarith
    refine ⟨hi0, ?_⟩
    simp only [iouCheckNative]
    have : decide (0 < ra.area + rb.area - intersection_area_native ra rb) = false := by
      simp only [decide_eq_false_iff_not, not_lt]
      linarith
    rw [this, Bool.false_and]

/-- The tflite_detect / tflite_segment IoU test is literally the unguarded
    division-comparison applied to the pair's intersection and union. -/
theorem iouCheckCv_eq_ieeeDivGT (τ : ℚ) (ra rb : RectQ) :
    iouCheckCv τ ra rb
      = ieeeDivGT τ (intersection_area ra rb)
          (ra.area + rb.area - intersection_area ra rb) := rfl

/-- Counterexample to C3 as stated: the claim says the IoU division is
    guarded and the comparison never divides by zero, citing all three
    nms_sorted_bboxes copies. In tflite_detect.cpp (line 72) and
    tflite_segment.cpp (line 189) the comparison is the unguarded
    `ieeeDivGT`, and a candidate/kept pair with union = 0 — the zero
    rectangle against itself, below — makes it evaluate the division at a
    zero denominator (0/0, NaN under IEEE). The unguarded comparison is not
    the spec's guarded treat-IoU-as-0 comparison: at numerator 1 and
    denominator 0 the former suppresses (1/0 = +inf > τ) while the guarded
    one keeps, so the two functions differ. -/
theorem claim_C3_counterexample :
    (RectQ.area ⟨0,0,0,0⟩ + RectQ.area ⟨0,0,0,0⟩
        - intersection_area ⟨0,0,0,0⟩ ⟨0,0,0,0⟩ = 0) ∧
    iouCheckCv (1/2) ⟨0,0,0,0⟩ ⟨0,0,0,0⟩
      = ieeeDivGT (1/2) (intersection_area ⟨0,0,0,0⟩ ⟨0,0,0,0⟩) 0 ∧
    ieeeDivGT (1/2) 1 0 = true ∧
    guardedDivGTSpec (1/2) 1 0 = false ∧
    ieeeDivGT ≠ guardedDivGTSpec := by
  have hz : RectQ.area ⟨0,0,0,0⟩ + RectQ.area ⟨0,0,0,0⟩
      - intersection_area ⟨0,0,0,0⟩ ⟨0,0,0,0⟩ = 0 := by
    norm_num [RectQ.area, intersection_area, rectInter, RectQ.isEmpty]
  have h1 : ieeeDivGT (1/2) 1 0 = true := by
    norm_num [ieeeDivGT]
  have h2 : guardedDivGTSpec (1/2) 1 0 = false := by
    norm_num [guardedDivGTSpec]
  refine ⟨hz, ?_, h1, h2, ?_⟩
  · rw [iouCheckCv_eq_ieeeDivGT, hz]
  · intro h
    rw [h, h2] at h1
    exact Bool.false_ne_true h1

/-- Witness for C3 at the zero rectangle against itself (union = 0). -/
theorem claim_C3_witness :
    ((0:ℚ) < 1/2) ∧
    (RectQ.area ⟨0,0,0,0⟩ + RectQ.area ⟨0,0,0,0⟩
        - intersection_area ⟨0,0,0,0⟩ ⟨0,0,0,0⟩ ≤ 0) ∧
    intersection_area ⟨0,0,0,0⟩ ⟨0,0,0,0⟩ = 0 ∧
    iouCheckCv (1/2) ⟨0,0,0,0⟩ ⟨0,0,0,0⟩ = false ∧
    (RectQ.area ⟨0,0,0,0⟩ + RectQ.area ⟨0,0,0,0⟩
        - intersection_area_native ⟨0,0,0,0⟩ ⟨0,0,0,0⟩ ≤ 0) ∧
    intersection_area_native ⟨0,0,0,0⟩ ⟨0,0,0,0⟩ = 0 ∧
    iouCheckNative (1/2) ⟨0,0,0,0⟩ ⟨0,0,0,0⟩ = false := by
  have hτ : (0:ℚ) < 1/2 := by norm_num
  have hcv : RectQ.area ⟨0,0,0,0⟩ + RectQ.area ⟨0,0,0,0⟩
      - intersection_area ⟨0,0,0,0⟩ ⟨0,0,0,0⟩ ≤ 0 := by
    norm_num [RectQ.area, intersection_area, rectInter, RectQ.isEmpty]
  have hna : RectQ.area ⟨0,0,0,0⟩ + RectQ.area ⟨0,0,0,0⟩
      - intersection_area_native ⟨0,0,0,0⟩ ⟨0,0,0,0⟩ ≤ 0 := by
    norm_num [RectQ.area, intersection_area_native]
  have h := claim_C3_zero_union_never_suppresses (1/2) ⟨0,0,0,0⟩ ⟨0,0,0,0⟩ hτ
  exact ⟨hτ, hcv, (h.1 hcv).1, (h.1 hcv).2, hna, (h.2 hna).1, (h.2 hna).2⟩

/-! ### Reading and building proposals -/

theorem readRows_spec (vec : List (List ℚ)) (off i : ℕ) :
    ∀ (cs : List ℕ) (l : List ℚ), readRows vec off i cs = some l →
      l.length = cs.length ∧
      ∀ k, k < cs.length → readCol vec (cs.getD k 0 + off) i = some (l.getD k 0) := by
  intro cs
  induction cs with
  | nil =>
    intro l h
    simp only [readRows, Option.some.injEq] at h
    subst h
    exact ⟨rfl, fun k hk => absurd hk (Nat.not_lt_zero k)⟩
  | cons c cs ih =>
    intro l h
    rcases Option.bind_eq_some.mp h with ⟨s, hs, h2⟩
    rcases Option.bind_eq_some.mp h2 with ⟨ss, hss, h3⟩
    have hl : l = s :: ss := by
      have := h3.symm
      simpa using this
    subst hl
    obtain ⟨hlen, hk⟩ := ih ss hss
    refine ⟨by simp [hlen], ?_⟩
    intro k hklt
    cases k with
    | zero => simpa using hs
    | succ k' =>
      have hk' : k' < cs.length := by simpa using hklt
      simpa using hk k' hk'

theorem readRows_none (vec : List (List ℚ)) (off i : ℕ) :
    ∀ cs : List ℕ, (∃ c ∈ cs, readCol vec (c + off) i = none) →
      readRows vec off i cs = none := by
  intro cs
  induction cs with
  | nil => rintro ⟨c, hc, _⟩; simp at hc
  | cons a cs ih =>
    rintro ⟨c, hc, hnone⟩
    rcases List.mem_cons.mp hc with rfl | hmem
    · simp [readRows, hnone]
    · cases hread : readCol vec (a + off) i with
      | none => simp [readRows, hread]
      | some s => simp [readRows, hread, ih ⟨c, hmem, hnone⟩]

theorem buildLoop_mem {α : Type} (f : ℕ → Option (List α)) :
    ∀ (idxs : List ℕ) (acc : List α), buildLoop f idxs = some acc →
      ∀ p ∈ acc, ∃ i ∈ idxs, ∃ li, f i = some li ∧ p ∈ li := by
  intro idxs
  induction idxs with
  | nil =>
    intro acc h p hp
    simp only [buildLoop, Option.some.injEq] at h
    subst h
    simp at hp
  | cons i idxs ih =>
    intro acc h p hp
    rcases Option.bind_eq_some.mp h with ⟨x, hx, h2⟩
    rcases Option.bind_eq_some.mp h2 with ⟨xs, hxs, h3⟩
    have hacc : acc = x ++ xs := by
      have := h3.symm
      simpa using this
    subst hacc
    rcases List.mem_append.mp hp with hpx | hpxs
    · exact ⟨i, List.mem_cons_self i idxs, x, hx, hpx⟩
    · rcases ih xs hxs p hpxs with ⟨j, hj, li, hfi, hpli⟩
      exact ⟨j, List.mem_cons_of_mem i hj, li, hfi, hpli⟩

theorem buildLoop_none {α : Type} (f : ℕ → Option (List α)) :
    ∀ idxs : List ℕ, (∃ i ∈ idxs, f i = none) → buildLoop f idxs = none := by
  intro idxs
  induction idxs with
  | nil => rintro ⟨i, hi, _⟩; simp at hi
  | cons a idxs ih =>
    rintro ⟨i, hi, hnone⟩
    rcases List.mem_cons.mp hi with rfl | hmem
    · simp [buildLoop, hnone]
    · cases hfa : f a with
      | none => simp [buildLoop, hfa]
      | some x => simp [buildLoop, hfa, ih ⟨i, hmem, hnone⟩]

theorem buildLoop_all_nil {α : Type} (f : ℕ → Option (List α)) :
    ∀ idxs : List ℕ, (∀ i ∈ idxs, f i = some []) → buildLoop f idxs = some [] := by
  intro idxs
  induction idxs with
  | nil => intro _; rfl
  | cons a idxs ih =>
    intro h
    have ha := h a (List.mem_cons_self a idxs)
    have hrest := ih fun i hi => h i (List.mem_cons_of_mem a hi)
    simp [buildLoop, ha, hrest]

/-- Full characterization of the tflite per-column builder when all reads
    succeed: a column is kept iff its winning score is strictly above the
    threshold. -/
theorem buildColumnTflite_eq (vec : List (List ℚ)) (nc : ℕ) (τc : ℚ) (i : ℕ)
    (scores : List ℚ) (dx dy dw dh : ℚ)
    (hs : readRows vec 4 i (List.range nc) = some scores)
    (h0 : readCol vec 0 i = some dx) (h1 : readCol vec 1 i = some dy)
    (h2 : readCol vec 2 i = some dw) (h3 : readCol vec 3 i = some dh) :
    buildColumnTflite vec nc τc i =
      if τc < (bestClass scores).2 then
        some [⟨⟨dx, dy, dw, dh⟩, (bestClass scores).1, (bestClass scores).2⟩]
      else some [] := by
  simp only [buildColumnTflite, hs, Option.bind_eq_bind, Option.some_bind]
  split_ifs with hcond
  · simp [h0, h1, h2, h3]
  · rfl

/-- Every proposal a tflite column emits carries a confidence strictly above
    the threshold. -/
theorem buildColumnTflite_conf (vec : List (List ℚ)) (nc : ℕ) (τc : ℚ) (i : ℕ)
    (li : List DetectedObject) (p : DetectedObject)
    (h : buildColumnTflite vec nc τc i = some li) (hp : p ∈ li) :
    τc < p.confidence := by
  simp only [buildColumnTflite] at h
  rcases Option.bind_eq_some.mp h with ⟨scores, _, h2⟩
  split_ifs at h2 with hcond
  · rcases Option.bind_eq_some.mp h2 with ⟨dx, _, h3⟩
    rcases Option.bind_eq_some.mp h3 with ⟨dy, _, h4⟩
    rcases Option.bind_eq_some.mp h4 with ⟨dw, _, h5⟩
    rcases Option.bind_eq_some.mp h5 with ⟨dh, _, h6⟩
    have hli : li = [⟨⟨dx, dy, dw, dh⟩, (bestClass scores).1, (bestClass scores).2⟩] := by
      have := h6.symm
      simpa using this
    subst hli
    rcases List.mem_singleton.mp hp with rfl
    exact hcond
  · have hli : li = [] := by
      have := h2.symm
      simpa using this
    subst hli
    simp at hp

/-- A tflite column whose winning score does not strictly beat the threshold
    emits nothing (only the score reads are needed in that branch). -/
theorem buildColumnTflite_skip (vec : List (List ℚ)) (nc : ℕ) (τc : ℚ) (i : ℕ)
    (scores : List ℚ)
    (hs : readRows vec 4 i (List.range nc) = some scores)
    (hle : ¬ τc < (bestClass scores).2) :
    buildColumnTflite vec nc τc i = some [] := by
  simp only [buildColumnTflite, hs, Option.bind_eq_bind, Option.some_bind, if_neg hle]
  rfl

/-- Every proposal a native column emits has its rect in the top-left
    converted form (cx - w/2, cy - h/2, w, h) of that column's raw box. -/
theorem buildColumnNative_rect (vec : List (List ℚ)) (nc : ℕ) (τc : ℚ) (i : ℕ)
    (li : List DetectedObject) (p : DetectedObject)
    (h : buildColumnNative vec nc τc i = some li) (hp : p ∈ li) :
    ∃ cx cy wb hb, readCol vec 0 i = some cx ∧ readCol vec 1 i = some cy ∧
      readCol vec 2 i = some wb ∧ readCol vec 3 i = some hb ∧
      p.rect = ⟨cx - wb / 2, cy - hb / 2, wb, hb⟩ := by
  simp only [buildColumnNative] at h
  rcases Option.bind_eq_some.mp h with ⟨scores, _, h2⟩
  split_ifs at h2 with hcond
  · rcases Option.bind_eq_some.mp h2 with ⟨cx, hcx, h3⟩
    rcases Option.bind_eq_some.mp h3 with ⟨cy, hcy, h4⟩
    rcases Option.bind_eq_some.mp h4 with ⟨wb, hwb, h5⟩
    rcases Option.bind_eq_some.mp h5 with ⟨hb, hhb, h6⟩
    have hli : li = [⟨⟨cx - wb / 2, cy - hb / 2, wb, hb⟩,
        (bestClass scores).1, (bestClass scores).2⟩] := by
      have := h6.symm
      simpa using this
    subst hli
    rcases List.mem_singleton.mp hp with rfl
    exact ⟨cx, cy, wb, hb, hcx, hcy, hwb, hhb, rfl⟩
  · have hli : li = [] := by
      have := h2.symm
      simpa using this
    subst hli
    simp at hp

/-! ### The argmax scan -/

theorem getD_mem_of_lt {α : Type} (l : List α) (d : α) (n : ℕ) (h : n < l.length) :
    l.getD n d ∈ l := by
  rw [List.getD_eq_getElem l d h]
  exact List.getElem_mem h

/-- Behavior of the argmax scan from an arbitrary state: either no element
    strictly beats the running best and the state is returned unchanged, or
    the result is the first position attaining the maximum of the list, with
    the positions before it strictly below and every position at most it. -/
theorem bestClassGo_spec :
    ∀ (l : List ℚ) (c bi : ℕ) (bs : ℚ),
      ((∀ s ∈ l, s ≤ bs) ∧ bestClassGo l c bi bs = (bi, bs)) ∨
      (∃ k, k < l.length ∧ bs < l.getD k 0 ∧
        bestClassGo l c bi bs = (c + k, l.getD k 0) ∧
        (∀ j, j < k → l.getD j 0 < l.getD k 0) ∧
        (∀ j, j < l.length → l.getD j 0 ≤ l.getD k 0)) := by
  intro l
  induction l with
  | nil =>
    intro c bi bs
    left
    exact ⟨fun s hs => absurd hs (List.not_mem_nil s), rfl⟩
  | cons s rest ih =>
    intro c bi bs
    by_cases hup : bs < s
    · have heq : bestClassGo (s :: rest) c bi bs = bestClassGo rest (c + 1) c s := by
        simp [bestClassGo, hup]
      rcases ih (c + 1) c s with ⟨hall, hres⟩ | ⟨k, hk, hlt, hres, hbefore, hallle⟩
      · right
        refine ⟨0, by simp, by simpa using hup, ?_, ?_, ?_⟩
        · rw [heq, hres]; simp
        · intro j hj; exact absurd hj (Nat.not_lt_zero j)
        · intro j hjlt
          cases j with
          | zero => simp
          | succ j' =>
            have hj' : j' < rest.length := by simpa using hjlt
            simpa using hall (rest.getD j' 0) (getD_mem_of_lt rest 0 j' hj')
      · right
        refine ⟨k + 1, by simpa using hk, by simpa using lt_trans hup hlt, ?_, ?_, ?_⟩
        · rw [heq, hres]
          simp only [List.getD_cons_succ]
          congr 1
          omega
        · intro j hj
          cases j with
          | zero => simpa using hlt
          | succ j' =>
            have hj' : j' < k := by omega
            simpa using hbefore j' hj'
        · intro j hjlt
          cases j with
          | zero => simpa using le_of_lt hlt
          | succ j' =>
            have hj' : j' < rest.length := by simpa using hjlt
            simpa using hallle j' hj'
    · have heq : bestClassGo (s :: rest) c bi bs = bestClassGo rest (c + 1) bi bs := by
        simp [bestClassGo, hup]
      rcases ih (c + 1) bi bs with ⟨hall, hres⟩ | ⟨k, hk, hlt, hres, hbefore, hallle⟩
      · left
        refine ⟨?_, by rw [heq, hres]⟩
        intro s' hs'
        rcases List.mem_cons.mp hs' with rfl | hmem
        · exact le_of_not_lt hup
        · exact hall s' hmem
      · right
        refine ⟨k + 1, by simpa using hk, by simpa using hlt, ?_, ?_, ?_⟩
        · rw [heq, hres]
          simp only [List.getD_cons_succ]
          congr 1
          omega
        · intro j hj
          cases j with
          | zero =>
            have hsle : s ≤ bs := le_of_not_lt hup
            simpa using lt_of_le_of_lt hsle hlt
          | succ j' =>
            have hj' : j' < k := by omega
            simpa using hbefore j' hj'
        · intro j hjlt
          cases j with
          | zero =>
            have hsle : s ≤ bs := le_of_not_lt hup
            simpa using le_of_lt (lt_of_le_of_lt hsle hlt)
          | succ j' =>
            have hj' : j' < rest.length := by simpa using hjlt
            simpa using hallle j' hj'

/-- For scores that are all ≥ -FLT_MAX (every finite float is), bestClass
    returns the least argmax of the score list and its value. -/
theorem bestClass_argmax (scores : List ℚ) (hne : scores ≠ [])
    (hfin : ∀ s ∈ scores, negFLTMAX ≤ s) :
    (bestClass scores).1 < scores.length ∧
    scores.getD (bestClass scores).1 0 = (bestClass scores).2 ∧
    (∀ j, j < scores.length → scores.getD j 0 ≤ (bestClass scores).2) ∧
    (∀ j, j < (bestClass scores).1 → scores.getD j 0 < (bestClass scores).2) := by
  unfold bestClass
  rcases bestClassGo_spec scores 0 0 negFLTMAX with ⟨hall, hres⟩ | ⟨k, hk, _, hres, hbefore, hallle⟩
  · rw [hres]
    have hlen : 0 < scores.length := List.length_pos.mpr hne
    have hev : ∀ j, j < scores.length → scores.getD j 0 = negFLTMAX := fun j hj =>
      le_antisymm (hall _ (getD_mem_of_lt scores 0 j hj)) (hfin _ (getD_mem_of_lt scores 0 j hj))
    exact ⟨hlen, hev 0 hlen, fun j hj => le_of_eq (hev j hj),
      fun j hj => absurd hj (Nat.not_lt_zero j)⟩
  · rw [hres]
    simp only [Nat.zero_add]
    exact ⟨hk, by simp, fun j hj => hallle j hj, fun j hj => hbefore j hj⟩

/-! ### Shape of the three postprocess outputs -/

theorem take_min_length {α : Type} (l : List α) (N : ℕ) :
    l.take (min l.length N) = l.take N := by
  rw [List.take_eq_take]
  omega

theorem tflitePost_keep (vec : List (List ℚ)) (w nc : ℕ) (τc τi : ℚ) (N : ℕ)
    (ps : List DetectedObject) (h : proposalsTflite vec w nc τc = some ps) :
    tfliteDetectorPostprocess vec w nc τc τi N =
      some (((nmsKeepGo (fun a b => iouCheckCv τi a.rect b.rect) []
          (qsort_descent ps)).take N).map clampDet) := by
  simp only [tfliteDetectorPostprocess, h, Option.map_some', Option.some.injEq]
  have hmap := nms_sorted_bboxes_map_getD (qsort_descent ps) τi
  have hcomp : (fun k => clampDet ((qsort_descent ps).getD k defaultDet))
      = clampDet ∘ fun j => (qsort_descent ps).getD j defaultDet := rfl
  have hlen : (nms_sorted_bboxes (qsort_descent ps) τi).length
      = (nmsKeepGo (fun a b => iouCheckCv τi a.rect b.rect) []
          (qsort_descent ps)).length := by
    rw [← hmap, List.length_map]
  rw [hcomp, ← List.map_map, List.map_take, hmap, hlen, take_min_length]

theorem nativePost_keep (vec : List (List ℚ)) (w nc : ℕ) (τc τi : ℚ) (N : ℕ)
    (ps : List DetectedObject) (h : proposalsNative vec w nc τc = some ps) :
    objectDetectorPostprocess vec w nc τc τi N =
      some ((nmsKeepGo (fun a b => iouCheckNative τi a.rect b.rect) []
          (qsort_descent ps)).take N) := by
  simp only [objectDetectorPostprocess, h, Option.map_some', Option.some.injEq]
  have hmap := nms_sorted_bboxes_native_map_getD (qsort_descent ps) τi
  have hlen : (nms_sorted_bboxes_native (qsort_descent ps) τi).length
      = (nmsKeepGo (fun a b => iouCheckNative τi a.rect b.rect) []
          (qsort_descent ps)).length := by
    rw [← hmap, List.length_map]
  rw [List.map_take, hmap, hlen, take_min_length]

theorem segPost_keep (vec : List (List ℚ)) (w nc mc : ℕ) (τc τi : ℚ) (N : ℕ)
    (ps : List DetectedSegmentObject) (h : proposalsSeg vec w nc mc τc = some ps) :
    tfliteSegmenterPostprocess vec w nc mc τc τi N =
      some (((nmsKeepGo (fun a b => iouCheckCv τi a.rect b.rect) []
          (qsort_descent_seg ps)).take N).map clampSeg) := by
  simp only [tfliteSegmenterPostprocess, h, Option.map_some', Option.some.injEq]
  have hmap := nms_sorted_bboxes_seg_map_getD (qsort_descent_seg ps) τi
  have hcomp : (fun k => clampSeg ((qsort_descent_seg ps).getD k defaultSeg))
      = clampSeg ∘ fun j => (qsort_descent_seg ps).getD j defaultSeg := rfl
  have hlen : (nms_sorted_bboxes_seg (qsort_descent_seg ps) τi).length
      = (nmsKeepGo (fun a b => iouCheckCv τi a.rect b.rect) []
          (qsort_descent_seg ps)).length := by
    rw [← hmap, List.length_map]
  rw [hcomp, ← List.map_map, List.map_take, hmap, hlen, take_min_length]

/-- C7. Greedy NMS is idempotent: for a (sorted) proposal list, running
    nms_sorted_bboxes on the sub-list of objects it kept keeps every element
    of that sub-list, in both the tflite_detect and native-lib variants. -/
theorem claim_C7_nms_idempotent (objs : List DetectedObject) (τ : ℚ)
    (_hs : List.Sorted (fun a b : DetectedObject => b.confidence ≤ a.confidence) objs) :
    ((nms_sorted_bboxes ((nms_sorted_bboxes objs τ).map fun j => objs.getD j defaultDet) τ).map
        fun j => ((nms_sorted_bboxes objs τ).map fun j => objs.getD j defaultDet).getD j defaultDet)
      = (nms_sorted_bboxes objs τ).map (fun j => objs.getD j defaultDet) ∧
    ((nms_sorted_bboxes_native ((nms_sorted_bboxes_native objs τ).map fun j => objs.getD j defaultDet) τ).map
        fun j => ((nms_sorted_bboxes_native objs τ).map fun j => objs.getD j defaultDet).getD j defaultDet)
      = (nms_sorted_bboxes_native objs τ).map (fun j => objs.getD j defaultDet) := by
  constructor
  · rw [nms_sorted_bboxes_map_getD ((nms_sorted_bboxes objs τ).map fun j => objs.getD j defaultDet) τ,
      nms_sorted_bboxes_map_getD objs τ, nmsKeepGo_idem]
  · rw [nms_sorted_bboxes_native_map_getD ((nms_sorted_bboxes_native objs τ).map fun j => objs.getD j defaultDet) τ,
      nms_sorted_bboxes_native_map_getD objs τ, nmsKeepGo_idem]

/-! ### Claim C6: argmax with smallest-index tie-break -/

/-- C6. For a column i whose class-score reads succeed and are all
    ≥ -FLT_MAX (true of every finite float), the scanned best class is the
    argmax over c < num_classes of tensor[4+c][i], and on ties the smallest
    class index wins: every class before the winner scores strictly less.
    The final conjunct ties this to the emitted proposal: any proposal the
    column emits carries exactly this class index and score. -/
theorem claim_C6_argmax_smallest_tie (vec : List (List ℚ)) (i nc : ℕ) (scores : List ℚ)
    (hnc : 1 ≤ nc)
    (hs : readRows vec 4 i (List.range nc) = some scores)
    (hfin : ∀ s ∈ scores, negFLTMAX ≤ s) :
    (bestClass scores).1 < nc ∧
    readCol vec ((bestClass scores).1 + 4) i = some (bestClass scores).2 ∧
    (∀ c, c < nc → ∀ s, readCol vec (c + 4) i = some s → s ≤ (bestClass scores).2) ∧
    (∀ c, c < (bestClass scores).1 → ∀ s, readCol vec (c + 4) i = some s →
      s < (bestClass scores).2) ∧
    (∀ (τc : ℚ) (li : List DetectedObject) (p : DetectedObject),
      buildColumnTflite vec nc τc i = some li → p ∈ li →
      p.index = (bestClass scores).1 ∧ p.confidence = (bestClass scores).2) := by
  obtain ⟨hlen, hread⟩ := readRows_spec vec 4 i (List.range nc) scores hs
  rw [List.length_range] at hlen
  have hne : scores ≠ [] := by
    intro hnil
    rw [hnil] at hlen
    simp at hlen
    omega
  obtain ⟨hk, hkval, hle, hltb⟩ := bestClass_argmax scores hne hfin
  have hklt : (bestClass scores).1 < nc := hlen ▸ hk
  have hreadk : ∀ k, k < nc → readCol vec (k + 4) i = some (scores.getD k 0) := by
    intro k hknc
    have hkr : k < (List.range nc).length := by rw [List.length_range]; exact hknc
    have h := hread k hkr
    rwa [List.getD_eq_getElem (List.range nc) 0 hkr, List.getElem_range] at h
  refine ⟨hklt, ?_, ?_, ?_, ?_⟩
  · rw [hreadk _ hklt, hkval]
  · intro c hc s hreadc
    rw [hreadk c hc] at hreadc
    have hsv : scores.getD c 0 = s := Option.some_inj.mp hreadc
    rw [← hsv]
    exact hle c (hlen ▸ hc)
  · intro c hc s hreadc
    have hcnc : c < nc := lt_trans hc hklt
    rw [hreadk c hcnc] at hreadc
    have hsv : scores.getD c 0 = s := Option.some_inj.mp hreadc
    rw [← hsv]
    exact hltb c hc
  · intro τc li p hb hp
    simp only [buildColumnTflite, hs, Option.bind_eq_bind, Option.some_bind] at hb
    split_ifs at hb with hcond
    · rcases Option.bind_eq_some.mp hb with ⟨dx, _, h3⟩
      rcases Option.bind_eq_some.mp h3 with ⟨dy, _, h4⟩
      rcases Option.bind_eq_some.mp h4 with ⟨dw, _, h5⟩
      rcases Option.bind_eq_some.mp h5 with ⟨dh, _, h6⟩
      have hli : li = [⟨⟨dx, dy, dw, dh⟩, (bestClass scores).1, (bestClass scores).2⟩] := by
        have := h6.symm
        simpa using this
      subst hli
      rcases List.mem_singleton.mp hp with rfl
      exact ⟨rfl, rfl⟩
    · have hli : li = [] := by
        have := hb.symm
        simpa using this
      subst hli
      simp at hp

/-- Witness for C6 at the S6 tie scenario: two classes both scoring 9/10;
    the smaller class index 0 wins. -/
theorem claim_C6_witness :
    (1 ≤ 2) ∧
    readRows [[(0:ℚ)],[0],[0],[0],[9/10],[9/10]] 4 0 (List.range 2) = some [9/10, 9/10] ∧
    (∀ s ∈ [(9:ℚ)/10, 9/10], negFLTMAX ≤ s) ∧
    ((bestClass [(9:ℚ)/10, 9/10]).1 < 2 ∧
      readCol [[(0:ℚ)],[0],[0],[0],[9/10],[9/10]] ((bestClass [(9:ℚ)/10, 9/10]).1 + 4) 0
        = some (bestClass [(9:ℚ)/10, 9/10]).2 ∧
      (∀ c, c < 2 → ∀ s, readCol [[(0:ℚ)],[0],[0],[0],[9/10],[9/10]] (c + 4) 0 = some s →
        s ≤ (bestClass [(9:ℚ)/10, 9/10]).2) ∧
      (∀ c, c < (bestClass [(9:ℚ)/10, 9/10]).1 →
        ∀ s, readCol [[(0:ℚ)],[0],[0],[0],[9/10],[9/10]] (c + 4) 0 = some s →
        s < (bestClass [(9:ℚ)/10, 9/10]).2) ∧
      (∀ (τc : ℚ) (li : List DetectedObject) (p : DetectedObject),
        buildColumnTflite [[(0:ℚ)],[0],[0],[0],[9/10],[9/10]] 2 τc 0 = some li → p ∈ li →
        p.index = (bestClass [(9:ℚ)/10, 9/10]).1 ∧
        p.confidence = (bestClass [(9:ℚ)/10, 9/10]).2)) := by
  have h1 : (1:ℕ) ≤ 2 := by norm_num
  have h2 : readRows [[(0:ℚ)],[0],[0],[0],[9/10],[9/10]] 4 0 (List.range 2)
      = some [9/10, 9/10] := by
    simp [readRows, readCol, List.range_succ]
  have h3 : ∀ s ∈ [(9:ℚ)/10, 9/10], negFLTMAX ≤ s := by
    intro s hsm
    rcases List.mem_cons.mp hsm with rfl | hsm
    · norm_num [negFLTMAX]
    · rcases List.mem_singleton.mp hsm with rfl
      norm_num [negFLTMAX]
  exact ⟨h1, h2, h3,
    claim_C6_argmax_smallest_tie [[(0:ℚ)],[0],[0],[0],[9/10],[9/10]] 0 2 [9/10, 9/10] h1 h2 h3⟩

/-! ### Membership shape of postprocess outputs -/

/-- Every record of the tflite detector output is the clamp-normalization of
    some proposal. -/
theorem tflitePost_mem (vec : List (List ℚ)) (w nc : ℕ) (τc τi : ℚ) (N : ℕ)
    (out : List DetectedObject) (p : DetectedObject)
    (hpost : tfliteDetectorPostprocess vec w nc τc τi N = some out) (hp : p ∈ out) :
    ∃ ps q, proposalsTflite vec w nc τc = some ps ∧ q ∈ ps ∧ p = clampDet q := by
  have hex : ∃ ps, proposalsTflite vec w nc τc = some ps := by
    simp only [tfliteDetectorPostprocess] at hpost
    rcases Option.map_eq_some'.mp hpost with ⟨ps, hps, _⟩
    exact ⟨ps, hps⟩
  rcases hex with ⟨ps, hps⟩
  have hkeep := tflitePost_keep vec w nc τc τi N ps hps
  rw [hpost] at hkeep
  have hout := Option.some_inj.mp hkeep
  rw [hout] at hp
  rcases List.mem_map.mp hp with ⟨q, hq, rfl⟩
  have hq2 : q ∈ nmsKeepGo (fun a b => iouCheckCv τi a.rect b.rect) [] (qsort_descent ps) :=
    List.Sublist.mem hq (List.take_sublist N _)
  have hq3 : q ∈ qsort_descent ps :=
    List.Sublist.mem hq2 (nmsKeepGo_sublist _ _ [])
  have hq4 : q ∈ ps :=
    (List.perm_insertionSort (fun a b : DetectedObject => b.confidence ≤ a.confidence)
      ps).mem_iff.mp (by simpa [qsort_descent] using hq3)
  exact ⟨ps, q, hps, hq4, rfl⟩

/-- Every record of the native detector output is itself a proposal
    (no normalization on output). -/
theorem nativePost_mem (vec : List (List ℚ)) (w nc : ℕ) (τc τi : ℚ) (N : ℕ)
    (out : List DetectedObject) (p : DetectedObject)
    (hpost : objectDetectorPostprocess vec w nc τc τi N = some out) (hp : p ∈ out) :
    ∃ ps, proposalsNative vec w nc τc = some ps ∧ p ∈ ps := by
  have hex : ∃ ps, proposalsNative vec w nc τc = some ps := by
    simp only [objectDetectorPostprocess] at hpost
    rcases Option.map_eq_some'.mp hpost with ⟨ps, hps, _⟩
    exact ⟨ps, hps⟩
  rcases hex with ⟨ps, hps⟩
  have hkeep := nativePost_keep vec w nc τc τi N ps hps
  rw [hpost] at hkeep
  have hout := Option.some_inj.mp hkeep
  rw [hout] at hp
  have hq2 : p ∈ nmsKeepGo (fun a b => iouCheckNative τi a.rect b.rect) [] (qsort_descent ps) :=
    List.Sublist.mem hp (List.take_sublist N _)
  have hq3 : p ∈ qsort_descent ps :=
    List.Sublist.mem hq2 (nmsKeepGo_sublist _ _ [])
  exact ⟨ps, hps, (List.perm_insertionSort
    (fun a b : DetectedObject => b.confidence ≤ a.confidence) ps).mem_iff.mp
    (by simpa [qsort_descent] using hq3)⟩

/-- Every record of the segmenter output is the clamp-normalization of some
    proposal. -/
theorem segPost_mem (vec : List (List ℚ)) (w nc mc : ℕ) (τc τi : ℚ) (N : ℕ)
    (out : List DetectedSegmentObject) (p : DetectedSegmentObject)
    (hpost : tfliteSegmenterPostprocess vec w nc mc τc τi N = some out) (hp : p ∈ out) :
    ∃ ps q, proposalsSeg vec w nc mc τc = some ps ∧ q ∈ ps ∧ p = clampSeg q := by
  have hex : ∃ ps, proposalsSeg vec w nc mc τc = some ps := by
    simp only [tfliteSegmenterPostprocess] at hpost
    rcases Option.map_eq_some'.mp hpost with ⟨ps, hps, _⟩
    exact ⟨ps, hps⟩
  rcases hex with ⟨ps, hps⟩
  have hkeep := segPost_keep vec w nc mc τc τi N ps hps
  rw [hpost] at hkeep
  have hout := Option.some_inj.mp hkeep
  rw [hout] at hp
  rcases List.mem_map.mp hp with ⟨q, hq, rfl⟩
  have hq2 : q ∈ nmsKeepGo (fun a b => iouCheckCv τi a.rect b.rect) [] (qsort_descent_seg ps) :=
    List.Sublist.mem hq (List.take_sublist N _)
  have hq3 : q ∈ qsort_descent_seg ps :=
    List.Sublist.mem hq2 (nmsKeepGo_sublist _ _ [])
  have hq4 : q ∈ ps :=
    (List.perm_insertionSort (fun a b : DetectedSegmentObject => b.confidence ≤ a.confidence)
      ps).mem_iff.mp (by simpa [qsort_descent_seg] using hq3)
  exact ⟨ps, q, hps, hq4, rfl⟩

/-! ### Claim C5: strict confidence threshold -/

/-- C5. Confidence thresholding is strict. (1) A column with successful reads
    is kept iff its winning score strictly beats the threshold. (2) Every
    returned detection has confidence > confidence_threshold. (3) An input
    whose winning score per column equals the threshold exactly yields an
    empty output. -/
theorem claim_C5_strict_confidence_threshold :
    (∀ (vec : List (List ℚ)) (nc : ℕ) (τc : ℚ) (i : ℕ) (scores : List ℚ) (dx dy dw dh : ℚ),
        readRows vec 4 i (List.range nc) = some scores →
        readCol vec 0 i = some dx → readCol vec 1 i = some dy →
        readCol vec 2 i = some dw → readCol vec 3 i = some dh →
        buildColumnTflite vec nc τc i =
          if τc < (bestClass scores).2 then
            some [⟨⟨dx, dy, dw, dh⟩, (bestClass scores).1, (bestClass scores).2⟩]
          else some []) ∧
    (∀ (vec : List (List ℚ)) (w nc : ℕ) (τc τi : ℚ) (N : ℕ)
        (out : List DetectedObject) (p : DetectedObject),
        tfliteDetectorPostprocess vec w nc τc τi N = some out → p ∈ out →
        τc < p.confidence) ∧
    (∀ (vec : List (List ℚ)) (w nc : ℕ) (τc τi : ℚ) (N : ℕ),
        (∀ i ∈ List.range w, ∃ scores,
          readRows vec 4 i (List.range nc) = some scores ∧ (bestClass scores).2 = τc) →
        tfliteDetectorPostprocess vec w nc τc τi N = some []) := by
  refine ⟨fun vec nc τc i scores dx dy dw dh hs h0 h1 h2 h3 =>
      buildColumnTflite_eq vec nc τc i scores dx dy dw dh hs h0 h1 h2 h3, ?_, ?_⟩
  · intro vec w nc τc τi N out p hpost hp
    rcases tflitePost_mem vec w nc τc τi N out p hpost hp with ⟨ps, q, hps, hq, rfl⟩
    have hq2 := hps
    simp only [proposalsTflite] at hq2
    rcases buildLoop_mem _ _ _ hq2 q hq with ⟨i, _, li, hfi, hqli⟩
    have hconf := buildColumnTflite_conf vec nc τc i li q hfi hqli
    simpa [clampDet] using hconf
  · intro vec w nc τc τi N hall
    have hps : proposalsTflite vec w nc τc = some [] := by
      simp only [proposalsTflite]
      apply buildLoop_all_nil
      intro i hi
      rcases hall i hi with ⟨scores, hsc, hbest⟩
      exact buildColumnTflite_skip vec nc τc i scores hsc (by rw [hbest]; exact lt_irrefl τc)
    have hkeep := tflitePost_keep vec w nc τc τi N [] hps
    simpa [qsort_descent, List.insertionSort, nmsKeepGo] using hkeep

/-- Witness for C5: (1) column characterization at a concrete surviving
    column, (2) a returned record's confidence strictly above the threshold,
    (3) an input scoring exactly the threshold yields an empty output. -/
theorem claim_C5_witness :
    (readRows [[(1:ℚ)/2],[1/2],[1/5],[1/5],[9/10]] 4 0 (List.range 1) = some [9/10] ∧
      readCol [[(1:ℚ)/2],[1/2],[1/5],[1/5],[9/10]] 0 0 = some (1/2) ∧
      readCol [[(1:ℚ)/2],[1/2],[1/5],[1/5],[9/10]] 1 0 = some (1/2) ∧
      readCol [[(1:ℚ)/2],[1/2],[1/5],[1/5],[9/10]] 2 0 = some (1/5) ∧
      readCol [[(1:ℚ)/2],[1/2],[1/5],[1/5],[9/10]] 3 0 = some (1/5) ∧
      buildColumnTflite [[(1:ℚ)/2],[1/2],[1/5],[1/5],[9/10]] 1 (1/10) 0 =
        if (1/10 : ℚ) < (bestClass [(9:ℚ)/10]).2 then
          some [⟨⟨1/2, 1/2, 1/5, 1/5⟩, (bestClass [(9:ℚ)/10]).1, (bestClass [(9:ℚ)/10]).2⟩]
        else some []) ∧
    (tfliteDetectorPostprocess [[(1:ℚ)/2],[1/2],[1/5],[1/5],[9/10]] 1 1 (1/10) (1/2) 10
        = some [⟨⟨2/5, 2/5, 1/5, 1/5⟩, 0, 9/10⟩] ∧
      (1/10 : ℚ) < DetectedObject.confidence ⟨⟨2/5, 2/5, 1/5, 1/5⟩, 0, 9/10⟩) ∧
    ((∀ i ∈ List.range 1, ∃ scores,
        readRows [[(1:ℚ)/2],[1/2],[1/5],[1/5],[1/10]] 4 i (List.range 1) = some scores ∧
        (bestClass scores).2 = 1/10) ∧
      tfliteDetectorPostprocess [[(1:ℚ)/2],[1/2],[1/5],[1/5],[1/10]] 1 1 (1/10) (1/2) 10
        = some []) := by
  have hrr : readRows [[(1:ℚ)/2],[1/2],[1/5],[1/5],[9/10]] 4 0 (List.range 1)
      = some [9/10] := by
    simp [readRows, readCol, List.range_succ]
  have h0 : readCol [[(1:ℚ)/2],[1/2],[1/5],[1/5],[9/10]] 0 0 = some (1/2) := by
    simp [readCol]
  have h1 : readCol [[(1:ℚ)/2],[1/2],[1/5],[1/5],[9/10]] 1 0 = some (1/2) := by
    simp [readCol]
  have h2 : readCol [[(1:ℚ)/2],[1/2],[1/5],[1/5],[9/10]] 2 0 = some (1/5) := by
    simp [readCol]
  have h3 : readCol [[(1:ℚ)/2],[1/2],[1/5],[1/5],[9/10]] 3 0 = some (1/5) := by
    simp [readCol]
  have hbc : bestClass [(9:ℚ)/10] = (0, 9/10) := by
    norm_num [bestClass, bestClassGo, negFLTMAX]
  have hcol : buildColumnTflite [[(1:ℚ)/2],[1/2],[1/5],[1/5],[9/10]] 1 (1/10) 0
      = some [⟨⟨1/2, 1/2, 1/5, 1/5⟩, 0, 9/10⟩] := by
    simp only [buildColumnTflite, hrr, Option.bind_eq_bind, Option.some_bind, hbc]
    norm_num [readCol]
  have hps : proposalsTflite [[(1:ℚ)/2],[1/2],[1/5],[1/5],[9/10]] 1 1 (1/10)
      = some [⟨⟨1/2, 1/2, 1/5, 1/5⟩, 0, 9/10⟩] := by
    simp only [proposalsTflite, List.range_succ, List.range_zero, List.nil_append,
      buildLoop, hcol, Option.bind_eq_bind, Option.some_bind, List.append_nil,
      Option.pure_def]
  have hpost : tfliteDetectorPostprocess [[(1:ℚ)/2],[1/2],[1/5],[1/5],[9/10]]
      1 1 (1/10) (1/2) 10 = some [⟨⟨2/5, 2/5, 1/5, 1/5⟩, 0, 9/10⟩] := by
    rw [tflitePost_keep _ _ _ _ _ _ _ hps]
    have hsort : qsort_descent [(⟨⟨1/2, 1/2, 1/5, 1/5⟩, 0, 9/10⟩ : DetectedObject)]
        = [⟨⟨1/2, 1/2, 1/5, 1/5⟩, 0, 9/10⟩] := by
      simp [qsort_descent, List.insertionSort, List.orderedInsert]
    rw [hsort]
    simp only [nmsKeepGo, List.all_nil, if_pos]
    norm_num [clampDet, clampRect]
  have hall : ∀ i ∈ List.range 1, ∃ scores,
      readRows [[(1:ℚ)/2],[1/2],[1/5],[1/5],[1/10]] 4 i (List.range 1) = some scores ∧
      (bestClass scores).2 = 1/10 := by
    intro i hi
    have hi0 : i = 0 := by
      have := List.mem_range.mp hi
      omega
    subst hi0
    refine ⟨[1/10], by simp [readRows, readCol, List.range_succ], ?_⟩
    norm_num [bestClass, bestClassGo, negFLTMAX]
  refine ⟨⟨hrr, h0, h1, h2, h3, ?_⟩, ⟨hpost, ?_⟩, ⟨hall, ?_⟩⟩
  · have := claim_C5_strict_confidence_threshold.1
      [[(1:ℚ)/2],[1/2],[1/5],[1/5],[9/10]] 1 (1/10) 0 [9/10] (1/2) (1/2) (1/5) (1/5)
      hrr h0 h1 h2 h3
    exact this
  · exact claim_C5_strict_confidence_threshold.2.1
      [[(1:ℚ)/2],[1/2],[1/5],[1/5],[9/10]] 1 1 (1/10) (1/2) 10
      [⟨⟨2/5, 2/5, 1/5, 1/5⟩, 0, 9/10⟩] ⟨⟨2/5, 2/5, 1/5, 1/5⟩, 0, 9/10⟩
      hpost (List.mem_singleton.mpr rfl)
  · exact claim_C5_strict_confidence_threshold.2.2
      [[(1:ℚ)/2],[1/2],[1/5],[1/5],[1/10]] 1 1 (1/10) (1/2) 10 hall

/-! ### Claim C8: truncated, ordered output -/

/-- C8. The returned sequence is exactly the kept-index sequence K truncated
    to num_items_threshold, in append order (each index materialized as its
    clamp-normalized object); hence at most N records, in descending
    confidence order. -/
theorem claim_C8_output_is_truncated_kept (vec : List (List ℚ)) (w nc : ℕ)
    (τc τi : ℚ) (N : ℕ) (ps : List DetectedObject)
    (h : proposalsTflite vec w nc τc = some ps) :
    ∃ out, tfliteDetectorPostprocess vec w nc τc τi N = some out ∧
      out = ((nms_sorted_bboxes (qsort_descent ps) τi).take N).map
        (fun k => clampDet ((qsort_descent ps).getD k defaultDet)) ∧
      out.length ≤ N ∧
      List.Sorted (fun a b : DetectedObject => b.confidence ≤ a.confidence) out := by
  have hkeep := tflitePost_keep vec w nc τc τi N ps h
  have hmap := nms_sorted_bboxes_map_getD (qsort_descent ps) τi
  refine ⟨_, hkeep, ?_, ?_, ?_⟩
  · have hcomp : (fun k => clampDet ((qsort_descent ps).getD k defaultDet))
        = clampDet ∘ fun j => (qsort_descent ps).getD j defaultDet := rfl
    rw [hcomp, ← List.map_map]
    congr 1
    rw [List.map_take, hmap]
  · simp only [List.length_map, List.length_take]
    exact Nat.min_le_left _ _
  · have hsorted : List.Sorted (fun a b : DetectedObject => b.confidence ≤ a.confidence)
        (qsort_descent ps) :=
      List.sorted_insertionSort (fun a b : DetectedObject => b.confidence ≤ a.confidence) ps
    have hkept := List.Pairwise.sublist
      (nmsKeepGo_sublist (fun a b => iouCheckCv τi a.rect b.rect) (qsort_descent ps) [])
      hsorted
    have htake := List.Pairwise.sublist (List.take_sublist N _) hkept
    exact List.Pairwise.map clampDet (fun a b hab => hab) htake

/-- Witness for C8 at the single surviving box scenario. -/
theorem claim_C8_witness :
    proposalsTflite [[(1:ℚ)/2],[1/2],[1/5],[1/5],[9/10]] 1 1 (1/10)
      = some [⟨⟨1/2, 1/2, 1/5, 1/5⟩, 0, 9/10⟩] ∧
    (∃ out, tfliteDetectorPostprocess [[(1:ℚ)/2],[1/2],[1/5],[1/5],[9/10]]
        1 1 (1/10) (1/2) 10 = some out ∧
      out = ((nms_sorted_bboxes (qsort_descent [⟨⟨1/2, 1/2, 1/5, 1/5⟩, 0, 9/10⟩]) (1/2)).take 10).map
        (fun k => clampDet ((qsort_descent [⟨⟨1/2, 1/2, 1/5, 1/5⟩, 0, 9/10⟩]).getD k defaultDet)) ∧
      out.length ≤ 10 ∧
      List.Sorted (fun a b : DetectedObject => b.confidence ≤ a.confidence) out) := by
  have hcol : buildColumnTflite [[(1:ℚ)/2],[1/2],[1/5],[1/5],[9/10]] 1 (1/10) 0
      = some [⟨⟨1/2, 1/2, 1/5, 1/5⟩, 0, 9/10⟩] := by
    have hrr : readRows [[(1:ℚ)/2],[1/2],[1/5],[1/5],[9/10]] 4 0 (List.range 1)
        = some [9/10] := by
      simp [readRows, readCol, List.range_succ]
    have hbc : bestClass [(9:ℚ)/10] = (0, 9/10) := by
      norm_num [bestClass, bestClassGo, negFLTMAX]
    simp only [buildColumnTflite, hrr, Option.bind_eq_bind, Option.some_bind, hbc]
    norm_num [readCol]
  have hps : proposalsTflite [[(1:ℚ)/2],[1/2],[1/5],[1/5],[9/10]] 1 1 (1/10)
      = some [⟨⟨1/2, 1/2, 1/5, 1/5⟩, 0, 9/10⟩] := by
    simp only [proposalsTflite, List.range_succ, List.range_zero, List.nil_append,
      buildLoop, hcol, Option.bind_eq_bind, Option.some_bind, List.append_nil,
      Option.pure_def]
  exact ⟨hps, claim_C8_output_is_truncated_kept
    [[(1:ℚ)/2],[1/2],[1/5],[1/5],[9/10]] 1 1 (1/10) (1/2) 10
    [⟨⟨1/2, 1/2, 1/5, 1/5⟩, 0, 9/10⟩] hps⟩

/-! ### Claim C10: the top-confidence proposal is always returned -/

/-- C10. If at least one proposal survives thresholding and the cap is at
    least 1, the output is non-empty and its first record has maximal
    confidence among all proposals: the head of the sorted list is checked
    against an empty kept list, so NMS can never suppress it. -/
theorem claim_C10_first_record_max_confidence (vec : List (List ℚ)) (w nc : ℕ)
    (τc τi : ℚ) (N : ℕ) (ps : List DetectedObject)
    (hps : proposalsTflite vec w nc τc = some ps) (hne : ps ≠ []) (hN : 1 ≤ N) :
    ∃ out, tfliteDetectorPostprocess vec w nc τc τi N = some out ∧ out ≠ [] ∧
      (∀ q ∈ ps, q.confidence ≤ (out.headD defaultDet).confidence) ∧
      (∃ p ∈ ps, (out.headD defaultDet).confidence = p.confidence) := by
  have hkeep := tflitePost_keep vec w nc τc τi N ps hps
  have hperm := List.perm_insertionSort
    (fun a b : DetectedObject => b.confidence ≤ a.confidence) ps
  have hsne : qsort_descent ps ≠ [] := by
    intro h0
    apply hne
    have hlen := hperm.length_eq
    rw [show List.insertionSort (fun a b : DetectedObject => b.confidence ≤ a.confidence) ps
        = qsort_descent ps from rfl, h0] at hlen
    exact List.length_eq_zero.mp hlen.symm
  obtain ⟨s0, stail, hcons⟩ := List.exists_cons_of_ne_nil hsne
  obtain ⟨M, rfl⟩ : ∃ M, N = M + 1 := ⟨N - 1, by omega⟩
  have hkept : nmsKeepGo (fun a b => iouCheckCv τi a.rect b.rect) [] (qsort_descent ps)
      = s0 :: nmsKeepGo (fun a b => iouCheckCv τi a.rect b.rect) [s0] stail := by
    rw [hcons]
    simp [nmsKeepGo]
  have hout : ((nmsKeepGo (fun a b => iouCheckCv τi a.rect b.rect) []
        (qsort_descent ps)).take (M + 1)).map clampDet
      = clampDet s0 :: ((nmsKeepGo (fun a b => iouCheckCv τi a.rect b.rect) [s0]
        stail).take M).map clampDet := by
    rw [hkept, List.take_succ_cons, List.map_cons]
  have hsorted : List.Sorted (fun a b : DetectedObject => b.confidence ≤ a.confidence)
      (qsort_descent ps) :=
    List.sorted_insertionSort (fun a b : DetectedObject => b.confidence ≤ a.confidence) ps
  have hmax : ∀ q ∈ qsort_descent ps, q.confidence ≤ s0.confidence := by
    intro q hq
    rw [hcons] at hq hsorted
    rcases List.mem_cons.mp hq with rfl | hq2
    · exact le_refl q.confidence
    · exact List.rel_of_sorted_cons hsorted q hq2
  refine ⟨_, hkeep, ?_, ?_, ?_⟩
  · rw [hout]
    exact List.cons_ne_nil _ _
  · intro q hq
    rw [hout, List.headD_cons]
    exact hmax q (hperm.mem_iff.mpr hq)
  · refine ⟨s0, hperm.mem_iff.mp ?_, ?_⟩
    · rw [show List.insertionSort (fun a b : DetectedObject => b.confidence ≤ a.confidence) ps
          = qsort_descent ps from rfl, hcons]
      exact List.mem_cons_self s0 stail
    · rw [hout, List.headD_cons]
      rfl

/-- Witness for C10 at the single surviving box scenario. -/
theorem claim_C10_witness :
    proposalsTflite [[(1:ℚ)/2],[1/2],[1/5],[1/5],[9/10]] 1 1 (1/10)
      = some [⟨⟨1/2, 1/2, 1/5, 1/5⟩, 0, 9/10⟩] ∧
    ([(⟨⟨1/2, 1/2, 1/5, 1/5⟩, 0, 9/10⟩ : DetectedObject)] ≠ []) ∧ (1 ≤ 10) ∧
    (∃ out, tfliteDetectorPostprocess [[(1:ℚ)/2],[1/2],[1/5],[1/5],[9/10]]
        1 1 (1/10) (1/2) 10 = some out ∧ out ≠ [] ∧
      (∀ q ∈ [(⟨⟨1/2, 1/2, 1/5, 1/5⟩, 0, 9/10⟩ : DetectedObject)],
        q.confidence ≤ (out.headD defaultDet).confidence) ∧
      (∃ p ∈ [(⟨⟨1/2, 1/2, 1/5, 1/5⟩, 0, 9/10⟩ : DetectedObject)],
        (out.headD defaultDet).confidence = p.confidence)) := by
  have hcol : buildColumnTflite [[(1:ℚ)/2],[1/2],[1/5],[1/5],[9/10]] 1 (1/10) 0
      = some [⟨⟨1/2, 1/2, 1/5, 1/5⟩, 0, 9/10⟩] := by
    have hrr : readRows [[(1:ℚ)/2],[1/2],[1/5],[1/5],[9/10]] 4 0 (List.range 1)
        = some [9/10] := by
      simp [readRows, readCol, List.range_succ]
    have hbc : bestClass [(9:ℚ)/10] = (0, 9/10) := by
      norm_num [bestClass, bestClassGo, negFLTMAX]
    simp only [buildColumnTflite, hrr, Option.bind_eq_bind, Option.some_bind, hbc]
    norm_num [readCol]
  have hps : proposalsTflite [[(1:ℚ)/2],[1/2],[1/5],[1/5],[9/10]] 1 1 (1/10)
      = some [⟨⟨1/2, 1/2, 1/5, 1/5⟩, 0, 9/10⟩] := by
    simp only [proposalsTflite, List.range_succ, List.range_zero, List.nil_append,
      buildLoop, hcol, Option.bind_eq_bind, Option.some_bind, List.append_nil,
      Option.pure_def]
  exact ⟨hps, List.cons_ne_nil _ _, by norm_num,
    claim_C10_first_record_max_confidence
      [[(1:ℚ)/2],[1/2],[1/5],[1/5],[9/10]] 1 1 (1/10) (1/2) 10
      [⟨⟨1/2, 1/2, 1/5, 1/5⟩, 0, 9/10⟩] hps (List.cons_ne_nil _ _) (by norm_num)⟩

/-- Witness for C7 at a concrete sorted three-proposal list (two overlapping
    boxes, one disjoint). -/
theorem claim_C7_witness :
    List.Sorted (fun a b : DetectedObject => b.confidence ≤ a.confidence)
      ([⟨⟨0,0,1,1⟩,0,9/10⟩, ⟨⟨0,0,1,1⟩,0,4/5⟩, ⟨⟨5,5,1,1⟩,0,7/10⟩] : List DetectedObject) ∧
    (((nms_sorted_bboxes ((nms_sorted_bboxes ([⟨⟨0,0,1,1⟩,0,9/10⟩, ⟨⟨0,0,1,1⟩,0,4/5⟩, ⟨⟨5,5,1,1⟩,0,7/10⟩] : List DetectedObject) (1/2)).map fun j => List.getD ([⟨⟨0,0,1,1⟩,0,9/10⟩, ⟨⟨0,0,1,1⟩,0,4/5⟩, ⟨⟨5,5,1,1⟩,0,7/10⟩] : List DetectedObject) j defaultDet) (1/2)).map fun j => List.getD ((nms_sorted_bboxes ([⟨⟨0,0,1,1⟩,0,9/10⟩, ⟨⟨0,0,1,1⟩,0,4/5⟩, ⟨⟨5,5,1,1⟩,0,7/10⟩] : List DetectedObject) (1/2)).map fun j => List.getD ([⟨⟨0,0,1,1⟩,0,9/10⟩, ⟨⟨0,0,1,1⟩,0,4/5⟩, ⟨⟨5,5,1,1⟩,0,7/10⟩] : List DetectedObject) j defaultDet) j defaultDet) = ((nms_sorted_bboxes ([⟨⟨0,0,1,1⟩,0,9/10⟩, ⟨⟨0,0,1,1⟩,0,4/5⟩, ⟨⟨5,5,1,1⟩,0,7/10⟩] : List DetectedObject) (1/2)).map fun j => List.getD ([⟨⟨0,0,1,1⟩,0,9/10⟩, ⟨⟨0,0,1,1⟩,0,4/5⟩, ⟨⟨5,5,1,1⟩,0,7/10⟩] : List DetectedObject) j defaultDet) ∧
     ((nms_sorted_bboxes_native ((nms_sorted_bboxes_native ([⟨⟨0,0,1,1⟩,0,9/10⟩, ⟨⟨0,0,1,1⟩,0,4/5⟩, ⟨⟨5,5,1,1⟩,0,7/10⟩] : List DetectedObject) (1/2)).map fun j => List.getD ([⟨⟨0,0,1,1⟩,0,9/10⟩, ⟨⟨0,0,1,1⟩,0,4/5⟩, ⟨⟨5,5,1,1⟩,0,7/10⟩] : List DetectedObject) j defaultDet) (1/2)).map fun j => List.getD ((nms_sorted_bboxes_native ([⟨⟨0,0,1,1⟩,0,9/10⟩, ⟨⟨0,0,1,1⟩,0,4/5⟩, ⟨⟨5,5,1,1⟩,0,7/10⟩] : List DetectedObject) (1/2)).map fun j => List.getD ([⟨⟨0,0,1,1⟩,0,9/10⟩, ⟨⟨0,0,1,1⟩,0,4/5⟩, ⟨⟨5,5,1,1⟩,0,7/10⟩] : List DetectedObject) j defaultDet) j defaultDet) = ((nms_sorted_bboxes_native ([⟨⟨0,0,1,1⟩,0,9/10⟩, ⟨⟨0,0,1,1⟩,0,4/5⟩, ⟨⟨5,5,1,1⟩,0,7/10⟩] : List DetectedObject) (1/2)).map fun j => List.getD ([⟨⟨0,0,1,1⟩,0,9/10⟩, ⟨⟨0,0,1,1⟩,0,4/5⟩, ⟨⟨5,5,1,1⟩,0,7/10⟩] : List DetectedObject) j defaultDet)) := by
  have hsorted : List.Sorted (fun a b : DetectedObject => b.confidence ≤ a.confidence)
      ([⟨⟨0,0,1,1⟩,0,9/10⟩, ⟨⟨0,0,1,1⟩,0,4/5⟩, ⟨⟨5,5,1,1⟩,0,7/10⟩] : List DetectedObject) := by
    norm_num [List.sorted_cons]
  exact ⟨hsorted, claim_C7_nms_idempotent ([⟨⟨0,0,1,1⟩,0,9/10⟩, ⟨⟨0,0,1,1⟩,0,4/5⟩, ⟨⟨5,5,1,1⟩,0,7/10⟩] : List DetectedObject) (1/2) hsorted⟩

/-! ### Claim C1: detection-variant output rectangles -/

/-- Counterexample to C1 as stated: in the tflite detection variant
    (TfliteDetector_postprocess) the returned rectangle is clamped to the
    unit square. For the raw box (cx, cy, w, h) = (1/20, 1/2, 1/5, 1/5) the
    claim predicts (cx - w/2, cy - h/2, w, h) = (-1/20, 2/5, 1/5, 1/5), but
    the code returns (0, 2/5, 3/20, 1/5). -/
theorem claim_C1_counterexample :
    tfliteDetectorPostprocess [[(1:ℚ)/20],[1/2],[1/5],[1/5],[9/10]] 1 1 (1/10) (1/2) 10
      = some [⟨⟨0, 2/5, 3/20, 1/5⟩, 0, 9/10⟩] ∧
    (⟨0, 2/5, 3/20, 1/5⟩ : RectQ) ≠ ⟨1/20 - (1/5)/2, 1/2 - (1/5)/2, 1/5, 1/5⟩ := by
  constructor
  · have hcol : buildColumnTflite [[(1:ℚ)/20],[1/2],[1/5],[1/5],[9/10]] 1 (1/10) 0
        = some [⟨⟨1/20, 1/2, 1/5, 1/5⟩, 0, 9/10⟩] := by
      have hrr : readRows [[(1:ℚ)/20],[1/2],[1/5],[1/5],[9/10]] 4 0 (List.range 1)
          = some [9/10] := by
        simp [readRows, readCol, List.range_succ]
      have hbc : bestClass [(9:ℚ)/10] = (0, 9/10) := by
        norm_num [bestClass, bestClassGo, negFLTMAX]
      simp only [buildColumnTflite, hrr, Option.bind_eq_bind, Option.some_bind, hbc]
      norm_num [readCol]
    have hps : proposalsTflite [[(1:ℚ)/20],[1/2],[1/5],[1/5],[9/10]] 1 1 (1/10)
        = some [⟨⟨1/20, 1/2, 1/5, 1/5⟩, 0, 9/10⟩] := by
      simp only [proposalsTflite, List.range_succ, List.range_zero, List.nil_append,
        buildLoop, hcol, Option.bind_eq_bind, Option.some_bind, List.append_nil,
        Option.pure_def]
    rw [tflitePost_keep _ _ _ _ _ _ _ hps]
    have hsort : qsort_descent [(⟨⟨1/20, 1/2, 1/5, 1/5⟩, 0, 9/10⟩ : DetectedObject)]
        = [⟨⟨1/20, 1/2, 1/5, 1/5⟩, 0, 9/10⟩] := by
      simp [qsort_descent, List.insertionSort, List.orderedInsert]
    rw [hsort]
    simp only [nmsKeepGo, List.all_nil, if_pos]
    norm_num [clampDet, clampRect]
  · intro h
    rw [RectQ.mk.injEq] at h
    have hx := h.1
    norm_num at hx

/-- C1 (amended). In the native-lib detection variant
    (ObjectDetector_postprocess) every returned record's rectangle equals
    (cx - w/2, cy - h/2, w, h) of its column's raw box, exactly, with no
    clamping of any coordinate; the tflite detection variant instead clamps
    the output rectangle to the unit square like the segmentation variant. -/
theorem claim_C1_amended_native_unclamped (vec : List (List ℚ)) (w nc : ℕ)
    (τc τi : ℚ) (N : ℕ) (out : List DetectedObject) (o : DetectedObject)
    (hpost : objectDetectorPostprocess vec w nc τc τi N = some out) (ho : o ∈ out) :
    ∃ i ∈ List.range w, ∃ cx cy wb hb,
      readCol vec 0 i = some cx ∧ readCol vec 1 i = some cy ∧
      readCol vec 2 i = some wb ∧ readCol vec 3 i = some hb ∧
      o.rect = ⟨cx - wb / 2, cy - hb / 2, wb, hb⟩ := by
  rcases nativePost_mem vec w nc τc τi N out o hpost ho with ⟨ps, hps, hmem⟩
  simp only [proposalsNative] at hps
  rcases buildLoop_mem _ _ _ hps o hmem with ⟨i, hi, li, hfi, hoil⟩
  rcases buildColumnNative_rect vec nc τc i li o hfi hoil with
    ⟨cx, cy, wb, hb, hcx, hcy, hwb, hhb, hrect⟩
  exact ⟨i, hi, cx, cy, wb, hb, hcx, hcy, hwb, hhb, hrect⟩

/-- Witness for the amended C1: the native variant returns the out-of-square
    rectangle (-1/20, 2/5, 1/5, 1/5) untouched. -/
theorem claim_C1_witness :
    objectDetectorPostprocess [[(1:ℚ)/20],[1/2],[1/5],[1/5],[9/10]] 1 1 (1/10) (1/2) 10
      = some [⟨⟨-(1/20), 2/5, 1/5, 1/5⟩, 0, 9/10⟩] ∧
    (⟨⟨-(1/20), 2/5, 1/5, 1/5⟩, 0, 9/10⟩ : DetectedObject)
      ∈ [(⟨⟨-(1/20), 2/5, 1/5, 1/5⟩, 0, 9/10⟩ : DetectedObject)] ∧
    (∃ i ∈ List.range 1, ∃ cx cy wb hb,
      readCol [[(1:ℚ)/20],[1/2],[1/5],[1/5],[9/10]] 0 i = some cx ∧
      readCol [[(1:ℚ)/20],[1/2],[1/5],[1/5],[9/10]] 1 i = some cy ∧
      readCol [[(1:ℚ)/20],[1/2],[1/5],[1/5],[9/10]] 2 i = some wb ∧
      readCol [[(1:ℚ)/20],[1/2],[1/5],[1/5],[9/10]] 3 i = some hb ∧
      DetectedObject.rect ⟨⟨-(1/20), 2/5, 1/5, 1/5⟩, 0, 9/10⟩
        = ⟨cx - wb / 2, cy - hb / 2, wb, hb⟩) := by
  have hcol : buildColumnNative [[(1:ℚ)/20],[1/2],[1/5],[1/5],[9/10]] 1 (1/10) 0
      = some [⟨⟨-(1/20), 2/5, 1/5, 1/5⟩, 0, 9/10⟩] := by
    have hrr : readRows [[(1:ℚ)/20],[1/2],[1/5],[1/5],[9/10]] 4 0 (List.range 1)
        = some [9/10] := by
      simp [readRows, readCol, List.range_succ]
    have hbc : bestClass [(9:ℚ)/10] = (0, 9/10) := by
      norm_num [bestClass, bestClassGo, negFLTMAX]
    simp only [buildColumnNative, hrr, Option.bind_eq_bind, Option.some_bind, hbc]
    norm_num [readCol]
  have hps : proposalsNative [[(1:ℚ)/20],[1/2],[1/5],[1/5],[9/10]] 1 1 (1/10)
      = some [⟨⟨-(1/20), 2/5, 1/5, 1/5⟩, 0, 9/10⟩] := by
    simp only [proposalsNative, List.range_succ, List.range_zero, List.nil_append,
      buildLoop, hcol, Option.bind_eq_bind, Option.some_bind, List.append_nil,
      Option.pure_def]
  have hpost : objectDetectorPostprocess [[(1:ℚ)/20],[1/2],[1/5],[1/5],[9/10]]
      1 1 (1/10) (1/2) 10 = some [⟨⟨-(1/20), 2/5, 1/5, 1/5⟩, 0, 9/10⟩] := by
    rw [nativePost_keep _ _ _ _ _ _ _ hps]
    have hsort : qsort_descent [(⟨⟨-(1/20), 2/5, 1/5, 1/5⟩, 0, 9/10⟩ : DetectedObject)]
        = [⟨⟨-(1/20), 2/5, 1/5, 1/5⟩, 0, 9/10⟩] := by
      simp [qsort_descent, List.insertionSort, List.orderedInsert]
    rw [hsort]
    simp [nmsKeepGo]
  refine ⟨hpost, List.mem_singleton.mpr rfl, ?_⟩
  exact claim_C1_amended_native_unclamped [[(1:ℚ)/20],[1/2],[1/5],[1/5],[9/10]]
    1 1 (1/10) (1/2) 10 [⟨⟨-(1/20), 2/5, 1/5, 1/5⟩, 0, 9/10⟩]
    ⟨⟨-(1/20), 2/5, 1/5, 1/5⟩, 0, 9/10⟩ hpost (List.mem_singleton.mpr rfl)

/-! ### Claim C2: no validation of malformed tensors -/

/-- Counterexample to C2 as stated: a malformed tensor (4 rows, so the row
    count is inconsistent with 4 + num_classes = 5) is not rejected with an
    empty result; the class-score read is out of the tensor (undefined
    behavior in the source, `none` here), and the operation does not return
    the empty record list. -/
theorem claim_C2_counterexample :
    tfliteDetectorPostprocess [[(1:ℚ)/2],[1/2],[1/5],[1/5]] 1 1 (1/10) (1/2) 10 = none ∧
    tfliteDetectorPostprocess [[(1:ℚ)/2],[1/2],[1/5],[1/5]] 1 1 (1/10) (1/2) 10
      ≠ some [] := by
  have hnone : readCol [[(1:ℚ)/2],[1/2],[1/5],[1/5]] 4 0 = none := by
    simp [readCol]
  have hrr : readRows [[(1:ℚ)/2],[1/2],[1/5],[1/5]] 4 0 (List.range 1) = none := by
    apply readRows_none
    exact ⟨0, by simp, by simpa using hnone⟩
  have hcol : buildColumnTflite [[(1:ℚ)/2],[1/2],[1/5],[1/5]] 1 (1/10) 0 = none := by
    simp only [buildColumnTflite, hrr, Option.bind_eq_bind, Option.none_bind]
  have hps : proposalsTflite [[(1:ℚ)/2],[1/2],[1/5],[1/5]] 1 1 (1/10) = none := by
    simp only [proposalsTflite]
    exact buildLoop_none _ _ ⟨0, by simp, hcol⟩
  have hpost : tfliteDetectorPostprocess [[(1:ℚ)/2],[1/2],[1/5],[1/5]]
      1 1 (1/10) (1/2) 10 = none := by
    simp only [tfliteDetectorPostprocess, hps, Option.map_none']
  exact ⟨hpost, by rw [hpost]; simp⟩

/-- C2 (amended). The operation performs no input validation at all: any
    tensor whose row count is smaller than 4 + num_classes drives the
    class-score loop out of the tensor, which in the source is an undefined
    std::vector access (modeled `none`), not an invalid-input rejection that
    collapses to an empty-result return. (Non-finite values are likewise
    never checked; they are outside this exact-rational embedding.) -/
theorem claim_C2_amended_no_validation (vec : List (List ℚ)) (w nc : ℕ)
    (τc τi : ℚ) (N : ℕ)
    (hrow : vec.length < 4 + nc) (hw : 1 ≤ w) (hnc : 1 ≤ nc) :
    tfliteDetectorPostprocess vec w nc τc τi N = none := by
  have hcnone : readCol vec (nc - 1 + 4) 0 = none := by
    simp only [readCol]
    rw [List.getElem?_eq_none (by omega)]
    rfl
  have hrr : readRows vec 4 0 (List.range nc) = none :=
    readRows_none vec 4 0 (List.range nc)
      ⟨nc - 1, by rw [List.mem_range]; omega, hcnone⟩
  have hcol : buildColumnTflite vec nc τc 0 = none := by
    simp [buildColumnTflite, hrr]
  have hps : proposalsTflite vec w nc τc = none := by
    simp only [proposalsTflite]
    exact buildLoop_none _ _ ⟨0, by rw [List.mem_range]; omega, hcol⟩
  simp [tfliteDetectorPostprocess, hps]

/-- Witness for the amended C2 at the concrete malformed 4-row tensor. -/
theorem claim_C2_witness :
    ([[(1:ℚ)/2],[1/2],[1/5],[1/5]].length < 4 + 1) ∧ (1 ≤ 1) ∧
    tfliteDetectorPostprocess [[(1:ℚ)/2],[1/2],[1/5],[1/5]] 1 1 (1/10) (1/2) 10 = none := by
  refine ⟨by simp, le_refl 1, ?_⟩
  exact claim_C2_amended_no_validation [[(1:ℚ)/2],[1/2],[1/5],[1/5]] 1 1 (1/10) (1/2) 10
    (by simp) (le_refl 1) (le_refl 1)

/-! ### Claim C9: segmentation output rect bounds -/

/-- Counterexample to C9 as stated ("all four quantities lie in [0,1]"):
    for the raw box (cx, cy, w, h) = (5, 1/2, 0, 1) the segmentation variant
    returns the rect (5, 0, -4, 1), whose x coordinate is 5 > 1. -/
theorem claim_C9_counterexample :
    tfliteSegmenterPostprocess [[(5:ℚ)],[1/2],[0],[1],[9/10]] 1 1 0 (1/10) (1/2) 10
      = some [⟨⟨5, 0, -4, 1⟩, 0, 9/10, []⟩] ∧
    ¬ ((⟨⟨5, 0, -4, 1⟩, 0, 9/10, []⟩ : DetectedSegmentObject).rect.x ≤ 1) := by
  constructor
  · have hcol : buildColumnSeg [[(5:ℚ)],[1/2],[0],[1],[9/10]] 1 0 (1/10) 0
        = some [⟨⟨5, 1/2, 0, 1⟩, 0, 9/10, []⟩] := by
      have hrr : readRows [[(5:ℚ)],[1/2],[0],[1],[9/10]] 4 0 (List.range 1)
          = some [9/10] := by
        simp [readRows, readCol, List.range_succ]
      have hco : readRows [[(5:ℚ)],[1/2],[0],[1],[9/10]] (4 + 1) 0 (List.range 0)
          = some [] := by
        simp [readRows]
      have hbc : bestClass [(9:ℚ)/10] = (0, 9/10) := by
        norm_num [bestClass, bestClassGo, negFLTMAX]
      simp only [buildColumnSeg, hrr, Option.bind_eq_bind, Option.some_bind, hbc, hco]
      norm_num [readCol]
    have hps : proposalsSeg [[(5:ℚ)],[1/2],[0],[1],[9/10]] 1 1 0 (1/10)
        = some [⟨⟨5, 1/2, 0, 1⟩, 0, 9/10, []⟩] := by
      simp only [proposalsSeg, List.range_succ, List.range_zero, List.nil_append,
        buildLoop, hcol, Option.bind_eq_bind, Option.some_bind, List.append_nil,
        Option.pure_def]
    rw [segPost_keep _ _ _ _ _ _ _ _ hps]
    have hsort : qsort_descent_seg
        [(⟨⟨5, 1/2, 0, 1⟩, 0, 9/10, []⟩ : DetectedSegmentObject)]
        = [⟨⟨5, 1/2, 0, 1⟩, 0, 9/10, []⟩] := by
      simp [qsort_descent_seg, List.insertionSort, List.orderedInsert]
    rw [hsort]
    simp only [nmsKeepGo, List.all_nil, if_pos]
    norm_num [clampSeg, clampRect]
  · norm_num

/-- C9 (amended). Every segmentation-variant output rect satisfies
    0 ≤ x, 0 ≤ y, x + width ≤ 1 and y + height ≤ 1, for every raw box
    including out-of-square and negative-size ones; x and y alone may exceed
    1 and x + width, y + height may be negative (see the counterexample), so
    the four quantities need not lie in [0,1]. -/
theorem claim_C9_amended_clamp_bounds (vec : List (List ℚ)) (w nc mc : ℕ)
    (τc τi : ℚ) (N : ℕ) (out : List DetectedSegmentObject) (o : DetectedSegmentObject)
    (hpost : tfliteSegmenterPostprocess vec w nc mc τc τi N = some out) (ho : o ∈ out) :
    0 ≤ o.rect.x ∧ 0 ≤ o.rect.y ∧
    o.rect.x + o.rect.width ≤ 1 ∧ o.rect.y + o.rect.height ≤ 1 := by
  rcases segPost_mem vec w nc mc τc τi N out o hpost ho with ⟨ps, q, _, _, rfl⟩
  simp only [clampSeg, clampRect]
  refine ⟨le_max_left 0 _, le_max_left 0 _, ?_, ?_⟩
  · have hx : max 0 (q.rect.x - q.rect.width / 2) +
        (min 1 (q.rect.x + q.rect.width / 2) - max 0 (q.rect.x - q.rect.width / 2))
        = min 1 (q.rect.x + q.rect.width / 2) := by ring
    rw [hx]
    exact min_le_left 1 _
  · have hy : max 0 (q.rect.y - q.rect.height / 2) +
        (min 1 (q.rect.y + q.rect.height / 2) - max 0 (q.rect.y - q.rect.height / 2))
        = min 1 (q.rect.y + q.rect.height / 2) := by ring
    rw [hy]
    exact min_le_left 1 _

/-- Witness for the amended C9 at the counterexample input. -/
theorem claim_C9_witness :
    tfliteSegmenterPostprocess [[(5:ℚ)],[1/2],[0],[1],[9/10]] 1 1 0 (1/10) (1/2) 10
      = some [⟨⟨5, 0, -4, 1⟩, 0, 9/10, []⟩] ∧
    (⟨⟨5, 0, -4, 1⟩, 0, 9/10, []⟩ : DetectedSegmentObject)
      ∈ [(⟨⟨5, 0, -4, 1⟩, 0, 9/10, []⟩ : DetectedSegmentObject)] ∧
    (0 ≤ (⟨⟨5, 0, -4, 1⟩, 0, 9/10, []⟩ : DetectedSegmentObject).rect.x ∧
     0 ≤ (⟨⟨5, 0, -4, 1⟩, 0, 9/10, []⟩ : DetectedSegmentObject).rect.y ∧
     (⟨⟨5, 0, -4, 1⟩, 0, 9/10, []⟩ : DetectedSegmentObject).rect.x +
       (⟨⟨5, 0, -4, 1⟩, 0, 9/10, []⟩ : DetectedSegmentObject).rect.width ≤ 1 ∧
     (⟨⟨5, 0, -4, 1⟩, 0, 9/10, []⟩ : DetectedSegmentObject).rect.y +
       (⟨⟨5, 0, -4, 1⟩, 0, 9/10, []⟩ : DetectedSegmentObject).rect.height ≤ 1) := by
  have hcol : buildColumnSeg [[(5:ℚ)],[1/2],[0],[1],[9/10]] 1 0 (1/10) 0
      = some [⟨⟨5, 1/2, 0, 1⟩, 0, 9/10, []⟩] := by
    have hrr : readRows [[(5:ℚ)],[1/2],[0],[1],[9/10]] 4 0 (List.range 1)
        = some [9/10] := by
      simp [readRows, readCol, List.range_succ]
    have hco : readRows [[(5:ℚ)],[1/2],[0],[1],[9/10]] (4 + 1) 0 (List.range 0)
        = some [] := by
      simp [readRows]
    have hbc : bestClass [(9:ℚ)/10] = (0, 9/10) := by
      norm_num [bestClass, bestClassGo, negFLTMAX]
    simp only [buildColumnSeg, hrr, Option.bind_eq_bind, Option.some_bind, hbc, hco]
    norm_num [readCol]
  have hps : proposalsSeg [[(5:ℚ)],[1/2],[0],[1],[9/10]] 1 1 0 (1/10)
      = some [⟨⟨5, 1/2, 0, 1⟩, 0, 9/10, []⟩] := by
    simp only [proposalsSeg, List.range_succ, List.range_zero, List.nil_append,
      buildLoop, hcol, Option.bind_eq_bind, Option.some_bind, List.append_nil,
      Option.pure_def]
  have hpost : tfliteSegmenterPostprocess [[(5:ℚ)],[1/2],[0],[1],[9/10]]
      1 1 0 (1/10) (1/2) 10 = some [⟨⟨5, 0, -4, 1⟩, 0, 9/10, []⟩] := by
    rw [segPost_keep _ _ _ _ _ _ _ _ hps]
    have hsort : qsort_descent_seg
        [(⟨⟨5, 1/2, 0, 1⟩, 0, 9/10, []⟩ : DetectedSegmentObject)]
        = [⟨⟨5, 1/2, 0, 1⟩, 0, 9/10, []⟩] := by
      simp [qsort_descent_seg, List.insertionSort, List.orderedInsert]
    rw [hsort]
    simp only [nmsKeepGo, List.all_nil, if_pos]
    norm_num [clampSeg, clampRect]
  exact ⟨hpost, List.mem_singleton.mpr rfl,
    claim_C9_amended_clamp_bounds [[(5:ℚ)],[1/2],[0],[1],[9/10]] 1 1 0 (1/10) (1/2) 10
      [⟨⟨5, 0, -4, 1⟩, 0, 9/10, []⟩] ⟨⟨5, 0, -4, 1⟩, 0, 9/10, []⟩
      hpost (List.mem_singleton.mpr rfl)⟩

/-! ### Claim C4: pixel-rect conversion and containment -/

/-- Counterexample to C4 as stated: the code converts the normalized rect to
    prototype-grid pixels by C++ float-to-int truncation, not rounding, and
    scales x, w by mask_shape1 = H_m and y, h by mask_shape2 = W_m, not the
    axes the claim states. On the square 160-grid, x = 33/3200 gives
    x·160 = 1.65: the code truncates to 1 while the claimed formula rounds
    to 2, and the point (1, 0) is retained by the code's filter yet lies
    outside the claimed rect_px. On a non-square grid the axis swap also
    separates the two. -/
theorem claim_C4_counterexample :
    pixelRect ⟨33/3200, 0, 1/2, 1/2⟩ 160 160
      ≠ pixelRectSpec ⟨33/3200, 0, 1/2, 1/2⟩ 160 160 ∧
    filterPoints (pixelRect ⟨33/3200, 0, 1/2, 1/2⟩ 160 160) [(1, 0)] = [(1, 0)] ∧
    RectZ.containsPt (pixelRectSpec ⟨33/3200, 0, 1/2, 1/2⟩ 160 160) 1 0 = false ∧
    pixelRect ⟨1/2, 0, 1/4, 1/4⟩ 100 200 ≠ pixelRectSpec ⟨1/2, 0, 1/4, 1/4⟩ 100 200 := by
  have h1 : pixelRect ⟨33/3200, 0, 1/2, 1/2⟩ 160 160 = ⟨1, 0, 80, 80⟩ := by
    norm_num [pixelRect, truncQ, RectZ.mk.injEq]
  have h2 : pixelRectSpec ⟨33/3200, 0, 1/2, 1/2⟩ 160 160 = ⟨2, 0, 80, 80⟩ := by
    norm_num [pixelRectSpec, roundQ, round_eq, RectZ.mk.injEq]
  have h3 : pixelRect ⟨1/2, 0, 1/4, 1/4⟩ 100 200 = ⟨50, 0, 25, 50⟩ := by
    norm_num [pixelRect, truncQ, RectZ.mk.injEq]
  have h4 : pixelRectSpec ⟨1/2, 0, 1/4, 1/4⟩ 100 200 = ⟨100, 0, 50, 25⟩ := by
    norm_num [pixelRectSpec, roundQ, round_eq, RectZ.mk.injEq]
  refine ⟨?_, ?_, ?_, ?_⟩
  · rw [h1, h2]
    decide
  · rw [h1]
    decide
  · rw [h2]
    decide
  · rw [h3, h4]
    decide

/-- C4 (amended). The pixel rect is
    (trunc(x·H_m), trunc(y·W_m), trunc(w·H_m), trunc(h·W_m)) with trunc the
    C++ float-to-int truncation toward zero and H_m = mask_shape1,
    W_m = mask_shape2 (so x and w are scaled by the grid height, y and h by
    the grid width); a contour point is retained by the filter iff it lies in
    the half-open rectangle X ≤ px < X + W, Y ≤ py < Y + H of that rect. -/
theorem claim_C4_amended_trunc_halfopen (r : RectQ) (m1 m2 : ℕ)
    (pts : List (ℤ × ℤ)) (p : ℤ × ℤ) :
    pixelRect r m1 m2 = ⟨truncQ (r.x * m1), truncQ (r.y * m2),
      truncQ (r.width * m1), truncQ (r.height * m2)⟩ ∧
    (p ∈ filterPoints (pixelRect r m1 m2) pts ↔
      p ∈ pts ∧
      truncQ (r.x * m1) ≤ p.1 ∧ p.1 < truncQ (r.x * m1) + truncQ (r.width * m1) ∧
      truncQ (r.y * m2) ≤ p.2 ∧ p.2 < truncQ (r.y * m2) + truncQ (r.height * m2)) := by
  refine ⟨rfl, ?_⟩
  simp only [filterPoints, List.mem_filter, RectZ.containsPt, pixelRect,
    Bool.and_eq_true, decide_eq_true_eq]
  tauto

/-- Witness for the amended C4 at the square 160-grid rect and the point
    (1, 0). -/
theorem claim_C4_witness :
    pixelRect ⟨33/3200, 0, 1/2, 1/2⟩ 160 160
      = ⟨truncQ ((33:ℚ)/3200 * (160:ℕ)), truncQ ((0:ℚ) * (160:ℕ)),
         truncQ ((1:ℚ)/2 * (160:ℕ)), truncQ ((1:ℚ)/2 * (160:ℕ))⟩ ∧
    ((1, 0) ∈ filterPoints (pixelRect ⟨33/3200, 0, 1/2, 1/2⟩ 160 160) [((1:ℤ), (0:ℤ))] ↔
      ((1:ℤ), (0:ℤ)) ∈ [((1:ℤ), (0:ℤ))] ∧
      truncQ ((33:ℚ)/3200 * (160:ℕ)) ≤ 1 ∧
      (1:ℤ) < truncQ ((33:ℚ)/3200 * (160:ℕ)) + truncQ ((1:ℚ)/2 * (160:ℕ)) ∧
      truncQ ((0:ℚ) * (160:ℕ)) ≤ 0 ∧
      (0:ℤ) < truncQ ((0:ℚ) * (160:ℕ)) + truncQ ((1:ℚ)/2 * (160:ℕ))) :=
  claim_C4_amended_trunc_halfopen ⟨33/3200, 0, 1/2, 1/2⟩ 160 160 [(1, 0)] (1, 0)

end Yolo
